import Mathlib

/-!
Verification of the intercom-swap core against its specification.

Part A embeds the argument-repair module (`decimalToAtomicString`,
`coerceUsdtAtomic`, `coerceSolLamports`, `repairToolArguments`) from the
repository source.  JavaScript values are modelled by the inductive
`JsValue`; JavaScript numbers appear only in their integer-valued and
non-finite forms (`vInt`, `vNanInf`), which covers every numeric behaviour
the embedded code distinguishes exactly (integral doubles render exactly
under `String()` and `toFixed`).  Strings are processed over `List Char`,
mirroring the trimming, artifact-stripping, tokenising and regex matching
of the source character by character.

Part B models the trade state machine and the pre-pay verifier.  Their
implementation files are not part of the provided sources (only the
end-to-end test that calls them is), so those definitions are modelled
from the specification, as marked in their doc comments.
-/

namespace IntercomSwap

/-- Whitespace class used by JavaScript `String.prototype.trim` and the
regular-expression class `\s`: ASCII whitespace plus the Unicode space
separators, line separators and BOM. -/
def isJsWsCode (n : Nat) : Bool :=
  n == 32 || (decide (9 ≤ n) && decide (n ≤ 13)) || n == 160 || n == 0x1680 ||
  (decide (0x2000 ≤ n) && decide (n ≤ 0x200a)) || n == 0x2028 || n == 0x2029 ||
  n == 0x202f || n == 0x205f || n == 0x3000 || n == 0xfeff

def isJsWs (c : Char) : Bool := isJsWsCode c.toNat

/-- ASCII decimal digit, the regex class `[0-9]`. -/
def isDigitC (c : Char) : Bool := decide (48 ≤ c.toNat) && decide (c.toNat ≤ 57)

/-- Characters removed by `replaceAll('_','')` / `replaceAll(',','')`. -/
def notArtifact (c : Char) : Bool := !(c == '_' || c == ',')

/-- Remove trailing JavaScript whitespace. -/
def trimRightL : List Char → List Char
  | [] => []
  | c :: cs =>
    match trimRightL cs with
    | [] => if isJsWs c then [] else [c]
    | r => c :: r

/-- JavaScript `String.prototype.trim` on the character list. -/
def jsTrimL (cs : List Char) : List Char := trimRightL (cs.dropWhile isJsWs)

def jsTrimStr (s : String) : String := ⟨jsTrimL s.data⟩

/-- `replaceAll('_','').replaceAll(',','')`. -/
def stripArt (cs : List Char) : List Char := cs.filter notArtifact

/-- `s.split(/\s+/)[0] || ''`: on a string with no leading whitespace this
is the longest whitespace-free leading run (and `''` when the string starts
with whitespace or is empty, exactly as the JavaScript split yields an
empty first component there). -/
def firstTok (cs : List Char) : List Char := cs.takeWhile (fun c => !isJsWs c)

/-- Numeric value of a digit list (the `BigInt` of a decimal numeral;
`BigInt('')` is `0`). -/
def natOfDigitsAux (a : Nat) : List Char → Nat
  | [] => a
  | c :: cs => natOfDigitsAux (a * 10 + (c.toNat - 48)) cs

def natOfDigitsL (cs : List Char) : Nat := natOfDigitsAux 0 cs

def natOfDigits (s : String) : Nat := natOfDigitsL s.data

/-- Digit character for a value in `[0, 9]`. -/
def digitChar : Nat → Char
  | 0 => '0' | 1 => '1' | 2 => '2' | 3 => '3' | 4 => '4'
  | 5 => '5' | 6 => '6' | 7 => '7' | 8 => '8' | _ => '9'

/-- Fuel-driven decimal rendering (the fuel `n + 1` always suffices). -/
def natToDigitsAux : Nat → Nat → List Char → List Char
  | _, 0, acc => acc
  | n, fuel + 1, acc =>
    if n < 10 then digitChar n :: acc
    else natToDigitsAux (n / 10) fuel (digitChar (n % 10) :: acc)

/-- Decimal rendering of a natural number, as `BigInt.prototype.toString`
and `String()` produce it: no sign, no leading zeros, `"0"` for zero. -/
def natToDigits (n : Nat) : List Char := natToDigitsAux n (n + 1) []

/-- Removal of the optional leading `+` matched by `[+]?`. -/
def stripPlus : List Char → List Char
  | [] => []
  | c :: rest => if c = '+' then rest else c :: rest

/-- What may follow the integer part: nothing, or a dot and a nonempty
digit run (the group `(?:\.([0-9]+))?` anchored by `$`). -/
def parseDecTail : List Char → Option (List Char)
  | [] => some []
  | '.' :: fs => if fs ≠ [] ∧ fs.all isDigitC then some fs else none
  | _ => none

/-- The regex match `^([+]?[0-9]+)(?:\.([0-9]+))?$`, returning the integer
part (leading `+` already removed, as `m[1].replace(/^\+/,'')` does) and
the fractional part (`[]` when absent). -/
def parseDecL (cs : List Char) : Option (List Char × List Char) :=
  if (stripPlus cs).takeWhile isDigitC = [] then none
  else
    match parseDecTail ((stripPlus cs).dropWhile isDigitC) with
    | some fs => some ((stripPlus cs).takeWhile isDigitC, fs)
    | none => none

/-- The `".5" → "0.5"` fixup. -/
def startDotFix (tok : List Char) : List Char :=
  if tok.head? = some '.' then '0' :: tok else tok

/-- The `"1." → "1.0"` fixup (applied after `startDotFix`). -/
def endDotFix (s : List Char) : List Char :=
  if s.getLast? = some '.' then s ++ ['0'] else s

/-- `BigInt(intPart) * 10^decimals + BigInt(fracPadded)` rendered in
decimal, where `fracPadded = (fracPart + '0'.repeat(decimals)).slice(0,
decimals)`. -/
def atomicOf (ip fp : List Char) (d : Nat) : List Char :=
  natToDigits (natOfDigitsL ip * 10 ^ d + natOfDigitsL ((fp ++ List.replicate d '0').take d))

/-- Processing of the whitespace-free token extracted by the source: the
`^[0-9]+$` short-circuit, the dot fixups, the regex match, the
`fracDigits ≤ decimals` bound and the big-integer computation.
`none` means the source falls back to returning its input unchanged. -/
def tokenAtomic (tok : List Char) (d : Nat) : Option (List Char) :=
  if tok = [] then none
  else if tok.all isDigitC then some tok
  else
    match parseDecL (endDotFix (startDotFix tok)) with
    | none => none
    | some (ip, fp) => if d < fp.length then none else some (atomicOf ip fp d)

/-- The string branch of `decimalToAtomicString`: trim, bail out on empty,
strip `_`/`,`, keep the first whitespace token, then `tokenAtomic`; every
failure path returns the original string (`return value` in the source).
The `atomic < 0n` check of the source is vacuous here because digit lists
denote naturals. -/
def repairL (cs : List Char) (d : Nat) : List Char :=
  if jsTrimL cs = [] then cs
  else
    match tokenAtomic (firstTok (stripArt (jsTrimL cs))) d with
    | some out => out
    | none => cs

def decimalStringRepair (s : String) (d : Nat) : String := ⟨repairL s.data d⟩

/-- `Number.prototype.toFixed` for an integer-valued number (exact in this
range): sign, decimal digits, and `decimals` zeros after the point. -/
def jsToFixedInt (n : Int) (d : Nat) : String :=
  ⟨(if n < 0 then ['-'] else []) ++ natToDigits n.natAbs ++
    (if d = 0 then [] else '.' :: List.replicate d '0')⟩

/-- A JavaScript value as the argument-repair module distinguishes them.
`vInt` is a number holding an exact integer; `vNanInf` a non-finite
number.  Objects are insertion-ordered key/value lists (keys unique, as in
JavaScript objects). -/
inductive JsValue where
  | vNull
  | vUndef
  | vNanInf
  | vBool (b : Bool)
  | vInt (n : Int)
  | vStr (s : String)
  | vArr (elems : List JsValue)
  | vObj (fields : List (String × JsValue))

/-- `decimalToAtomicString(value, decimals)` from the source.  `null`,
`undefined`, non-finite numbers and non-string non-number values are
returned as-is; a nonnegative integer number becomes `String(value)`; a
negative integer number is re-run through the string branch on its
`toFixed(decimals)` rendering; strings go through `decimalStringRepair`. -/
def decimalToAtomicString (v : JsValue) (decimals : Nat) : JsValue :=
  match v with
  | .vNull => .vNull
  | .vUndef => .vUndef
  | .vNanInf => .vNanInf
  | .vInt n =>
    if 0 ≤ n then .vStr ⟨natToDigits n.toNat⟩
    else .vStr (decimalStringRepair (jsToFixedInt n decimals) decimals)
  | .vStr s => .vStr (decimalStringRepair s decimals)
  | v => v

def coerceUsdtAtomic (v : JsValue) : JsValue := decimalToAtomicString v 6

def coerceSolLamports (v : JsValue) : JsValue := decimalToAtomicString v 9

/-- Object field lists, in insertion order as JavaScript keeps them. -/
abbrev Obj := List (String × JsValue)

/-- Property read: first binding of the key. -/
def getO : Obj → String → Option JsValue
  | [], _ => none
  | (k1, v1) :: rest, k => if k1 = k then some v1 else getO rest k

/-- The `in` operator: the key is present (even with value `undefined`). -/
def hasK (o : Obj) (k : String) : Bool := (getO o k).isSome

def getD (o : Obj) (k : String) : JsValue := (getO o k).getD JsValue.vUndef

/-- Property write: update in place when the key exists, append otherwise
(JavaScript keeps the original position of an updated key). -/
def setO : Obj → String → JsValue → Obj
  | [], k, v => [(k, v)]
  | (k1, v1) :: rest, k, v =>
    if k1 = k then (k, v) :: rest else (k1, v1) :: setO rest k v

/-- The `delete` operator. -/
def delO : Obj → String → Obj
  | [], _ => []
  | (k1, v1) :: rest, k =>
    if k1 = k then delO rest k else (k1, v1) :: delO rest k

/-- `isObject(v)`: a non-null object that is not an array. -/
def isObjectV : JsValue → Bool
  | .vObj _ => true
  | _ => false

/-- The offer-schema scalar keys listed in `repairToolArguments`. -/
def offerKeys : List String :=
  ["pair", "have", "want", "btc_sats", "usdt_amount", "max_platform_fee_bps",
   "max_trade_fee_bps", "max_total_fee_bps", "min_sol_refund_window_sec",
   "max_sol_refund_window_sec"]

/-- The `channel`/`channels` fixup: when `channels` is not an array and
`channel` is a string with nonempty trim, set `channels` to the
one-element array of the trimmed string and delete `channel`. -/
def channelFix (o : Obj) : Obj :=
  match getO o "channels" with
  | some (.vArr _) => o
  | _ =>
    match getO o "channel" with
    | some (.vStr s) =>
      if jsTrimStr s ≠ "" then
        delO (setO o "channels" (.vArr [.vStr (jsTrimStr s)])) "channel"
      else o
    | _ => o

/-- `const o = {}; for (const k of flattened) o[k] = out[k];`. -/
def mkFlatObj (src : Obj) (ks : List String) : Obj :=
  ks.foldl (fun acc k => setO acc k (getD src k)) []

/-- Merge the flattened keys into an existing first offer, only where the
key is missing there (no silent override). -/
def mergeMissing (base src : Obj) (ks : List String) : Obj :=
  ks.foldl (fun acc k => if hasK acc k then acc else setO acc k (getD src k)) base

/-- The per-offer `usdt_amount` coercion of the final `offers.map`. -/
def coerceOfferUsdtV (v : JsValue) : JsValue :=
  match v with
  | .vObj fo =>
    if hasK fo "usdt_amount" then
      .vObj (setO fo "usdt_amount" (coerceUsdtAtomic (getD fo "usdt_amount")))
    else v
  | _ => v

def flattenedOf (o : Obj) : List String := offerKeys.filter (fun k => hasK o k)

/-- The replacement `offers` array: merge into an existing first offer
object, otherwise a fresh single-element array of the flattened keys. -/
def offerNewOffers (o1 : Obj) (flattened : List String) : JsValue :=
  match getO o1 "offers" with
  | some (.vArr (first :: rest)) =>
    match first with
    | .vObj base => .vArr (.vObj (mergeMissing base o1 flattened) :: rest)
    | _ => .vArr [.vObj (mkFlatObj o1 flattened)]
  | _ => .vArr [.vObj (mkFlatObj o1 flattened)]

/-- When flattened keys exist: install the new `offers` array, then delete
every flattened top-level key. -/
def offerFlattenStep (o1 : Obj) : Obj :=
  if flattenedOf o1 = [] then o1
  else
    (flattenedOf o1).foldl (fun acc k => delO acc k)
      (setO o1 "offers" (offerNewOffers o1 (flattenedOf o1)))

/-- The final `offers.map` coercing each offer's `usdt_amount`. -/
def offersMapStep (o2 : Obj) : Obj :=
  match getO o2 "offers" with
  | some (.vArr xs) => setO o2 "offers" (.vArr (xs.map coerceOfferUsdtV))
  | _ => o2

/-- The `intercomswap_offer_post` branch of `repairToolArguments`. -/
def repairOfferPost (o : Obj) : Obj := offersMapStep (offerFlattenStep (channelFix o))

/-- `if (key in out) out[key] = coerce(out[key])`. -/
def coerceField (o : Obj) (k : String) (f : JsValue → JsValue) : Obj :=
  if hasK o k then setO o k (f (getD o k)) else o

def rfqLikeTools : List String :=
  ["intercomswap_rfq_post", "intercomswap_quote_post", "intercomswap_terms_post"]

def lamportTools : List String :=
  ["intercomswap_sol_airdrop", "intercomswap_sol_transfer_sol"]

def scopedTools : List String :=
  "intercomswap_offer_post" :: rfqLikeTools ++ lamportTools

/-- `repairToolArguments(toolName, args)` from the source. -/
def repairToolArguments (toolName : String) (args : JsValue) : JsValue :=
  match args with
  | .vObj o =>
    if toolName = "intercomswap_offer_post" then .vObj (repairOfferPost o)
    else if toolName ∈ rfqLikeTools then
      .vObj (coerceField o "usdt_amount" coerceUsdtAtomic)
    else if toolName ∈ lamportTools then
      .vObj (coerceField o "lamports" coerceSolLamports)
    else args
  | _ => args

/-- Field list of an object value (used only to observe results). -/
def objFields : JsValue → Obj
  | .vObj o => o
  | _ => []

/-- Number of elements of the `offers` array of an object value, when it
is an array. -/
def offersLenOf (v : JsValue) : Option Nat :=
  match v with
  | .vObj o =>
    match getO o "offers" with
    | some (.vArr xs) => some xs.length
    | _ => none
  | _ => none

/-- The first offer of an object value, when it is an object. -/
def firstOfferO (o : Obj) : Obj :=
  match getO o "offers" with
  | some (.vArr (.vObj f :: _)) => f
  | _ => []

/-- A field of the first offer of an object value. -/
def firstOfferField (v : JsValue) (k : String) : Option JsValue :=
  match v with
  | .vObj o => getO (firstOfferO o) k
  | _ => none

/-- The offers array minus its first element. -/
def restOffers (o : Obj) : List JsValue :=
  match getO o "offers" with
  | some (.vArr (_ :: xs)) => xs
  | _ => []

/-- Whether the offers array exists and its first element is an object
(the source merges into it in that case and replaces `offers` wholesale
otherwise). -/
def usableFirstOffer (o : Obj) : Bool :=
  match getO o "offers" with
  | some (.vArr (f :: _)) => isObjectV f
  | _ => false

/-- Modelled from the spec: the `TERMS` body of §4.3 (the implementation
file `src/swap/stateMachine.js` is not among the provided sources). -/
structure TermsBody where
  pair : String
  direction : String
  btc_sats : Nat
  usdt_amount : Nat
  usdt_decimals : Nat
  sol_mint : String
  sol_recipient : String
  sol_refund : String
  sol_refund_after_unix : Int
  ln_receiver_peer : String
  ln_payer_peer : String
  terms_valid_until_unix : Int
deriving DecidableEq

/-- Modelled from the spec: the `LN_INVOICE` body of §4.3. -/
structure InvoiceBody where
  bolt11 : String
  payment_hash_hex : String
  amount_msat : Nat
deriving DecidableEq

/-- Modelled from the spec: the `SOL_ESCROW_CREATED` body of §4.3. -/
structure EscrowBody where
  payment_hash_hex : String
  program_id : String
  escrow_pda : String
  vault_ata : String
  mint : String
  amount : Nat
  refund_after_unix : Int
  recipient : String
  refund : String
  tx_sig : String
deriving DecidableEq

/-- Modelled from the spec: the complete envelope `kind` enum of §6. -/
inductive EKind where
  | RFQ | QUOTE | QUOTE_ACCEPT | SWAP_INVITE | TERMS | ACCEPT | LN_INVOICE
  | SOL_ESCROW_CREATED | LN_PAID | SOL_CLAIMED | STATUS | CANCEL
deriving DecidableEq

/-- Modelled from the spec: kind-specific envelope bodies (§4.3).  Kinds
that the state machine never stores are collapsed into `otherKind` with
their canonical encoding kept opaque. -/
inductive Body where
  | terms (tb : TermsBody)
  | accept (terms_hash : String)
  | lnInvoice (ib : InvoiceBody)
  | solEscrowCreated (eb : EscrowBody)
  | lnPaid (payment_hash_hex : String)
  | solClaimed (payment_hash_hex escrow_pda tx_sig : String)
  | cancel (reason : String)
  | statusNote (state note : String)
  | otherKind (k : EKind) (blob : String)
deriving DecidableEq

def kindOf : Body → EKind
  | .terms _ => .TERMS
  | .accept _ => .ACCEPT
  | .lnInvoice _ => .LN_INVOICE
  | .solEscrowCreated _ => .SOL_ESCROW_CREATED
  | .lnPaid _ => .LN_PAID
  | .solClaimed _ _ _ => .SOL_CLAIMED
  | .cancel _ => .CANCEL
  | .statusNote _ _ => .STATUS
  | .otherKind k _ => k

/-- Modelled from the spec: a signed envelope (§3, §6).  Signature bytes
are carried but cryptographic verification is abstracted away; byte
identity of envelopes is structural equality of this record. -/
structure Envelope where
  v : Nat
  trade_id : String
  body : Body
  signer_pubkey : String
  sig_hex : String
deriving DecidableEq

/-- Modelled from the spec: canonical encoding of a body (§4.1), a
deterministic field concatenation standing in for canonical JSON. -/
def encodeBody : Body → String
  | .terms tb =>
    String.intercalate "|" ["TERMS", tb.pair, tb.direction, toString tb.btc_sats,
      toString tb.usdt_amount, toString tb.usdt_decimals, tb.sol_mint, tb.sol_recipient,
      tb.sol_refund, toString tb.sol_refund_after_unix, tb.ln_receiver_peer,
      tb.ln_payer_peer, toString tb.terms_valid_until_unix]
  | .accept th => String.intercalate "|" ["ACCEPT", th]
  | .lnInvoice ib =>
    String.intercalate "|" ["LN_INVOICE", ib.bolt11, ib.payment_hash_hex,
      toString ib.amount_msat]
  | .solEscrowCreated eb =>
    String.intercalate "|" ["SOL_ESCROW_CREATED", eb.payment_hash_hex, eb.program_id,
      eb.escrow_pda, eb.vault_ata, eb.mint, toString eb.amount,
      toString eb.refund_after_unix, eb.recipient, eb.refund, eb.tx_sig]
  | .lnPaid ph => String.intercalate "|" ["LN_PAID", ph]
  | .solClaimed ph pda txs => String.intercalate "|" ["SOL_CLAIMED", ph, pda, txs]
  | .cancel r => String.intercalate "|" ["CANCEL", r]
  | .statusNote st note => String.intercalate "|" ["STATUS", st, note]
  | .otherKind _ blob => blob

/-- Modelled from the spec: the envelope hash over the canonical encoding
of the unsigned envelope (§4.1), with the identity encoding standing in
for the collision-resistant hash. -/
def hashEnvelope (e : Envelope) : String :=
  String.intercalate "|" ["v" ++ toString e.v, e.trade_id, encodeBody e.body]

/-- Modelled from the spec: trade states (§3). -/
inductive TState where
  | INIT | TERMS | ACCEPTED | INVOICE | ESCROW | LN_PAID | CLAIMED | CANCELLED | REFUNDED
deriving DecidableEq

def isTerminal : TState → Bool
  | .CLAIMED => true
  | .CANCELLED => true
  | .REFUNDED => true
  | _ => false

/-- Modelled from the spec: the per-trade record (§3), extended with the
list of successfully applied envelopes, which realises the byte-identical
replay rule of §4.4. -/
structure Trade where
  trade_id : String
  state : TState
  terms : Option TermsBody
  invoice : Option InvoiceBody
  escrow : Option EscrowBody
  paid : Option String
  claim : Option (String × String)
  terms_hash : Option String
  applied : List Envelope
deriving DecidableEq

/-- Modelled from the spec: `create_initial(trade_id)` (§4.4). -/
def createInitialTrade (id : String) : Trade :=
  ⟨id, .INIT, none, none, none, none, none, none, []⟩

/-- Modelled from the spec: the validation and state rejection reasons of
§4.4 and §7. -/
inductive ApplyErr where
  | WrongTradeId | StaleExpiry | DuplicateTerms | MismatchedBinding
  | IllegalTransition | AlreadyApplied
deriving DecidableEq

/-- Modelled from the spec: `apply(trade, signed_envelope)` (§4.4), with
the current time passed in for the `StaleExpiry` check.  Byte-identical
replay of an already applied envelope is a no-op success; a same-kind but
different envelope is rejected (`DuplicateTerms` for `TERMS`,
`AlreadyApplied` otherwise); transitions follow the legal-transition table
with its binding conditions, everything else is `IllegalTransition`. -/
def applySwapEnvelope (t : Trade) (e : Envelope) (now_unix : Int) : Except ApplyErr Trade :=
  if e.trade_id ≠ t.trade_id then .error .WrongTradeId
  else if e ∈ t.applied then .ok t
  else
    match t.state, e.body with
    | .INIT, .terms tb =>
      if tb.terms_valid_until_unix < now_unix then .error .StaleExpiry
      else .ok { t with state := .TERMS, terms := some tb,
                        terms_hash := some (hashEnvelope e), applied := e :: t.applied }
    | .TERMS, .terms _ => .error .DuplicateTerms
    | .TERMS, .accept th =>
      if t.terms_hash = some th then
        .ok { t with state := .ACCEPTED, applied := e :: t.applied }
      else .error .MismatchedBinding
    | .ACCEPTED, .lnInvoice ib =>
      .ok { t with state := .INVOICE, invoice := some ib, applied := e :: t.applied }
    | .INVOICE, .solEscrowCreated eb =>
      match t.terms, t.invoice with
      | some tb, some ib =>
        if eb.payment_hash_hex = ib.payment_hash_hex ∧ eb.amount = tb.usdt_amount
           ∧ eb.mint = tb.sol_mint ∧ eb.recipient = tb.sol_recipient
           ∧ eb.refund = tb.sol_refund ∧ eb.refund_after_unix = tb.sol_refund_after_unix then
          .ok { t with state := .ESCROW, escrow := some eb, applied := e :: t.applied }
        else .error .MismatchedBinding
      | _, _ => .error .IllegalTransition
    | .ESCROW, .lnPaid ph =>
      match t.invoice with
      | some ib =>
        if ph = ib.payment_hash_hex then
          .ok { t with state := .LN_PAID, paid := some ph, applied := e :: t.applied }
        else .error .MismatchedBinding
      | none => .error .IllegalTransition
    | .LN_PAID, .solClaimed ph pda _ =>
      match t.invoice, t.escrow with
      | some ib, some eb =>
        if ph = ib.payment_hash_hex ∧ pda = eb.escrow_pda then
          .ok { t with state := .CLAIMED, claim := some (ph, pda), applied := e :: t.applied }
        else .error .MismatchedBinding
      | _, _ => .error .IllegalTransition
    | s, .cancel _ =>
      if isTerminal s then .error .IllegalTransition
      else .ok { t with state := .CANCELLED, applied := e :: t.applied }
    | _, b =>
      if t.applied.any (fun p => kindOf p.body == kindOf b) then .error .AlreadyApplied
      else .error .IllegalTransition

/-- The trade after an apply attempt: the new trade on success, the
unchanged trade on rejection (rejection mutates nothing, §7). -/
def applyTrade (t : Trade) (e : Envelope) (now_unix : Int) : Trade :=
  match applySwapEnvelope t e now_unix with
  | .ok t2 => t2
  | .error _ => t

/-- Trades reachable from `create_initial` by successful applies. -/
inductive ReachableTrade : Trade → Prop where
  | start (id : String) : ReachableTrade (createInitialTrade id)
  | step (t : Trade) (e : Envelope) (now_unix : Int) (t2 : Trade) :
      ReachableTrade t → applySwapEnvelope t e now_unix = .ok t2 → ReachableTrade t2

/-- Modelled from the spec: an on-chain escrow status (§4.6). -/
inductive EscStatus where
  | FUNDED | CLAIMED | REFUNDED
deriving DecidableEq

/-- Modelled from the spec: the parsed on-chain escrow state (§4.5, §4.6). -/
structure EscrowAccount where
  status : EscStatus
  amount : Nat
  mint : String
  recipient : String
  refund : String
  payment_hash_hex : String
  refund_after_unix : Int
deriving DecidableEq

/-- Modelled from the spec: an on-chain account as the verifier reads it:
its owner program and, when it parses, its escrow state. -/
structure ChainAccount where
  owner : String
  escrow : Option EscrowAccount
deriving DecidableEq

/-- Modelled from the spec: a token account (vault ATA) read (§6). -/
structure TokenAccount where
  mint : String
  owner : String
  amount : Nat
deriving DecidableEq

/-- Modelled from the spec: the chain RPC surface of §6, as the state the
reads observe. -/
structure ChainState where
  accounts : List (String × ChainAccount)
  tokenAccounts : List (String × TokenAccount)
deriving DecidableEq

def lookupAccount (c : ChainState) (addr : String) : Option ChainAccount :=
  (c.accounts.find? (fun p => p.1 == addr)).map (·.2)

def lookupToken (c : ChainState) (addr : String) : Option TokenAccount :=
  (c.tokenAccounts.find? (fun p => p.1 == addr)).map (·.2)

/-- Modelled from the spec: `derive_pda(program_id, "escrow", payment_hash)`
(§4.5, §4.6), a deterministic injective encoding standing in for the
on-chain PDA derivation. -/
def derivePda (programId paymentHash : String) : String :=
  String.intercalate "/" ["pda", programId, "escrow", paymentHash]

/-- Modelled from the spec: the default safety margin of check 4 of §4.5
(ten minutes). -/
def SAFETY_MARGIN_SEC : Int := 600

/-- Modelled from the spec: the verification error kinds of §7. -/
inductive VerifyErr where
  | PayHashMismatch | PdaMismatch | EscrowMissing | EscrowWrongOwner
  | EscrowParseFailed | EscrowStateMismatch | EscrowTimeTooTight
  | VaultMissing | VaultMismatch | VaultUnderfunded | AmountMsatMismatch
deriving DecidableEq

/-- Modelled from the spec: check 5 and check 6 of §4.5 — the vault ATA
exists, is associated with the mint and the escrow PDA, holds at least the
escrow amount, and the invoice is for exactly `btc_sats * 1000` msat. -/
def verifyVault (terms : TermsBody) (invoice : InvoiceBody) (escrow : EscrowBody)
    (st : EscrowAccount) (taOpt : Option TokenAccount) : Except VerifyErr Unit :=
  match taOpt with
  | none => .error .VaultMissing
  | some ta =>
    if ta.mint = terms.sol_mint ∧ ta.owner = escrow.escrow_pda then
      if ta.amount < st.amount then .error .VaultUnderfunded
      else if invoice.amount_msat ≠ terms.btc_sats * 1000 then .error .AmountMsatMismatch
      else .ok ()
    else .error .VaultMismatch

/-- Modelled from the spec: check 3 and check 4 of §4.5 — the parsed
escrow state matches the negotiated terms (status funded, amount, mint,
recipient, refund, payment hash, refund time) and the safety margin fits
before `refund_after_unix`. -/
def verifyEscrowState (terms : TermsBody) (invoice : InvoiceBody) (escrow : EscrowBody)
    (chain : ChainState) (now_unix : Int) (st : EscrowAccount) : Except VerifyErr Unit :=
  if st.status = .FUNDED ∧ st.amount = terms.usdt_amount
     ∧ st.mint = terms.sol_mint ∧ st.recipient = terms.sol_recipient
     ∧ st.refund = terms.sol_refund
     ∧ st.payment_hash_hex = invoice.payment_hash_hex
     ∧ st.refund_after_unix = terms.sol_refund_after_unix then
    if now_unix + SAFETY_MARGIN_SEC < st.refund_after_unix then
      verifyVault terms invoice escrow st (lookupToken chain escrow.vault_ata)
    else .error .EscrowTimeTooTight
  else .error .EscrowStateMismatch

/-- Modelled from the spec: the account-data part of check 3 — the account
bytes parse into an escrow state. -/
def verifyParsed (terms : TermsBody) (invoice : InvoiceBody) (escrow : EscrowBody)
    (chain : ChainState) (now_unix : Int) (stOpt : Option EscrowAccount) :
    Except VerifyErr Unit :=
  match stOpt with
  | none => .error .EscrowParseFailed
  | some st => verifyEscrowState terms invoice escrow chain now_unix st

/-- Modelled from the spec: check 3's existence and ownership — the escrow
account exists and is owned by `program_id`. -/
def verifyAccount (terms : TermsBody) (invoice : InvoiceBody) (escrow : EscrowBody)
    (chain : ChainState) (now_unix : Int) (acctOpt : Option ChainAccount) :
    Except VerifyErr Unit :=
  match acctOpt with
  | none => .error .EscrowMissing
  | some acct =>
    if acct.owner ≠ escrow.program_id then .error .EscrowWrongOwner
    else verifyParsed terms invoice escrow chain now_unix acct.escrow

/-- Modelled from the spec: `verifySwapPrePayOnchain` (§4.5; the
implementation file `src/swap/verify.js` is not among the provided
sources).  The six checks, in order; any failure refuses payment with a
verification error.  The `payment_hash` the on-chain state must carry is
the negotiated one, i.e. the invoice's (§3: the invoice and escrow hashes
coincide by check 1). -/
def verifySwapPrePayOnchain (terms : TermsBody) (invoice : InvoiceBody)
    (escrow : EscrowBody) (chain : ChainState) (now_unix : Int) : Except VerifyErr Unit :=
  if invoice.payment_hash_hex ≠ escrow.payment_hash_hex then .error .PayHashMismatch
  else if escrow.escrow_pda ≠ derivePda escrow.program_id escrow.payment_hash_hex then
    .error .PdaMismatch
  else
    verifyAccount terms invoice escrow chain now_unix (lookupAccount chain escrow.escrow_pda)

/-- Modelled from the spec: the client attempts `pay(bolt11)` only when
the pre-pay verifier succeeded (§4.5: "Only if all six pass may the client
attempt `pay(bolt11)`"). -/
def clientAttemptsPay (terms : TermsBody) (invoice : InvoiceBody)
    (escrow : EscrowBody) (chain : ChainState) (now_unix : Int) : Bool :=
  match verifySwapPrePayOnchain terms invoice escrow chain now_unix with
  | .ok _ => true
  | .error _ => false

/-- The six checks of §4.5, stated declaratively in the spec's own terms:
hash agreement, deterministic PDA derivation, the parsed on-chain escrow
state matching the negotiated terms, the time-safety margin, the funded
vault ATA, and the invoice amount in millisatoshi. -/
def prePayChecks (terms : TermsBody) (invoice : InvoiceBody) (escrow : EscrowBody)
    (chain : ChainState) (now_unix : Int) : Prop :=
  invoice.payment_hash_hex = escrow.payment_hash_hex
  ∧ escrow.escrow_pda = derivePda escrow.program_id escrow.payment_hash_hex
  ∧ ∃ acct st ta,
      lookupAccount chain escrow.escrow_pda = some acct
      ∧ acct.owner = escrow.program_id
      ∧ acct.escrow = some st
      ∧ st.status = .FUNDED ∧ st.amount = terms.usdt_amount
      ∧ st.mint = terms.sol_mint ∧ st.recipient = terms.sol_recipient
      ∧ st.refund = terms.sol_refund
      ∧ st.payment_hash_hex = invoice.payment_hash_hex
      ∧ st.refund_after_unix = terms.sol_refund_after_unix
      ∧ now_unix + SAFETY_MARGIN_SEC < st.refund_after_unix
      ∧ lookupToken chain escrow.vault_ata = some ta
      ∧ ta.mint = terms.sol_mint ∧ ta.owner = escrow.escrow_pda
      ∧ st.amount ≤ ta.amount
      ∧ invoice.amount_msat = terms.btc_sats * 1000

/-! Concrete inputs used by the witnesses below: the argument object of the
C8 counterexample, and a happy-path trade whose envelopes mirror the
end-to-end test (trade `t1`, 50000 sats against 100 USDT). -/

deriving instance DecidableEq for Except

def c8args : Obj :=
  [("usdt_amount", .vStr "1"), ("pair", .vStr "p"),
   ("offers", .vArr [.vObj [("usdt_amount", .vStr "0.5")], .vObj []])]

def termsEx : TermsBody :=
  ⟨"BTC_LN/USDT_SOL", "BTC_LN->USDT_SOL", 50000, 100000000, 6, "MintA", "RecipB",
   "RefundC", 7200, "alicepk", "bobpk", 300⟩

def invEx : InvoiceBody := ⟨"lnbcrt500u1qq", "aa11", 50000000⟩

def escPdaEx : String := derivePda "ProgP" "aa11"

def escEx : EscrowBody :=
  ⟨"aa11", "ProgP", escPdaEx, "VaultV", "MintA", 100000000, 7200, "RecipB", "RefundC", "sig1"⟩

def env1 : Envelope := ⟨1, "t1", .terms termsEx, "alicepk", "s1"⟩

def env2 : Envelope := ⟨1, "t1", .accept (hashEnvelope env1), "bobpk", "s2"⟩

def env3 : Envelope := ⟨1, "t1", .lnInvoice invEx, "alicepk", "s3"⟩

def env4 : Envelope := ⟨1, "t1", .solEscrowCreated escEx, "alicepk", "s4"⟩

def trade0 : Trade := createInitialTrade "t1"

def trade1 : Trade := applyTrade trade0 env1 0

def trade2 : Trade := applyTrade trade1 env2 0

def trade3 : Trade := applyTrade trade2 env3 0

def trade4 : Trade := applyTrade trade3 env4 0

def chainEx : ChainState :=
  ⟨[(escPdaEx, ⟨"ProgP", some ⟨.FUNDED, 100000000, "MintA", "RecipB", "RefundC", "aa11", 7200⟩⟩)],
   [("VaultV", ⟨"MintA", escPdaEx, 100000000⟩)]⟩

/-- Whether a string survives the repair pipeline: after trimming it is
nonempty, and its first whitespace-separated token (after `_`/`,`
removal) is accepted by `tokenAtomic` — i.e. it parses as a nonnegative
decimal numeral within the declared precision. -/
def stringRepairable (s : String) (d : Nat) : Bool :=
  !(jsTrimL s.data).isEmpty
    && (tokenAtomic (firstTok (stripArt (jsTrimL s.data))) d).isSome

/-! Character-class facts. -/

theorem not_ws_of_digit (c : Char) (h : isDigitC c = true) : isJsWs c = false := by
  simp only [isDigitC, Bool.and_eq_true, decide_eq_true_eq] at h
  simp only [isJsWs, isJsWsCode, Bool.or_eq_false_iff, beq_eq_false_iff_ne, ne_eq,
    Bool.and_eq_false_iff, decide_eq_false_iff_not, not_le]
  omega

theorem notArtifact_of_digit (c : Char) (h : isDigitC c = true) : notArtifact c = true := by
  by_cases e1 : c = '_'
  · subst e1; exact absurd h (by decide)
  · by_cases e2 : c = ','
    · subst e2; exact absurd h (by decide)
    · simp [notArtifact, e1, e2]

theorem digitChar_digit (k : Nat) : isDigitC (digitChar k) = true := by
  unfold digitChar
  split <;> decide

/-! Decimal rendering facts. -/

theorem natToDigitsAux_digits : ∀ (fuel n : Nat) (acc : List Char),
    (∀ c ∈ acc, isDigitC c = true) → ∀ c ∈ natToDigitsAux n fuel acc, isDigitC c = true := by
  intro fuel
  induction fuel with
  | zero => intro n acc hacc c hc; exact hacc c hc
  | succ fuel ih =>
    intro n acc hacc c hc
    simp only [natToDigitsAux] at hc
    split at hc
    · rcases List.mem_cons.mp hc with rfl | hmem
      · exact digitChar_digit n
      · exact hacc c hmem
    · refine ih (n / 10) _ ?_ c hc
      intro x hx
      rcases List.mem_cons.mp hx with rfl | hmem
      · exact digitChar_digit (n % 10)
      · exact hacc x hmem

theorem natToDigits_digits (n : Nat) : ∀ c ∈ natToDigits n, isDigitC c = true :=
  natToDigitsAux_digits (n + 1) n [] (by intro c hc; cases hc)

theorem natToDigitsAux_ne_nil : ∀ (fuel n : Nat) (acc : List Char),
    acc ≠ [] → natToDigitsAux n fuel acc ≠ [] := by
  intro fuel
  induction fuel with
  | zero => intro n acc hacc; exact hacc
  | succ fuel ih =>
    intro n acc hacc
    simp only [natToDigitsAux]
    split
    · exact List.cons_ne_nil _ _
    · exact ih (n / 10) _ (List.cons_ne_nil _ _)

theorem natToDigits_ne_nil (n : Nat) : natToDigits n ≠ [] := by
  unfold natToDigits natToDigitsAux
  split
  · exact List.cons_ne_nil _ _
  · exact natToDigitsAux_ne_nil _ _ _ (List.cons_ne_nil _ _)

/-! Trimming facts. -/

theorem trimRight_cons (c : Char) (cs : List Char) :
    trimRightL (c :: cs) =
      match trimRightL cs with
      | [] => if isJsWs c then [] else [c]
      | r => c :: r := by
  simp only [trimRightL]

theorem trimRight_of_all (l : List Char) (h : ∀ c ∈ l, isJsWs c = false) :
    trimRightL l = l := by
  induction l with
  | nil => rfl
  | cons c cs ih =>
    have hc : isJsWs c = false := h c (List.mem_cons_self c cs)
    have ih2 : trimRightL cs = cs := ih (fun x hx => h x (List.mem_cons_of_mem c hx))
    rw [trimRight_cons, ih2]
    cases cs with
    | nil => simp [hc]
    | cons d ds => rfl

theorem trimRight_append_ne (xs ys : List Char) (h : trimRightL ys ≠ []) :
    trimRightL (xs ++ ys) = xs ++ trimRightL ys := by
  induction xs with
  | nil => rfl
  | cons x xs ih =>
    rw [List.cons_append, trimRight_cons, ih]
    cases hcat : xs ++ trimRightL ys with
    | nil => exact absurd (List.append_eq_nil.mp hcat).2 h
    | cons a l => rw [List.cons_append, hcat]

theorem trimRight_append_nil (xs ys : List Char) (h : trimRightL ys = []) :
    trimRightL (xs ++ ys) = trimRightL xs := by
  induction xs with
  | nil => simpa using h
  | cons x xs ih => rw [List.cons_append, trimRight_cons, ih, trimRight_cons]

theorem trimRight_cons_shape (a : Char) (l : List Char) :
    trimRightL (a :: l) = [] ∨ ∃ r, trimRightL (a :: l) = a :: r := by
  rw [trimRight_cons]
  cases trimRightL l with
  | nil =>
    by_cases hws : isJsWs a
    · left; simp [hws]
    · right; exact ⟨[], by simp [hws]⟩
  | cons b r => right; exact ⟨b :: r, rfl⟩

theorem dropWhile_of_all_neg (p : Char → Bool) (l : List Char)
    (h : ∀ c ∈ l, p c = false) : l.dropWhile p = l := by
  cases l with
  | nil => rfl
  | cons a l => exact List.dropWhile_cons_of_neg (by simp [h a (List.mem_cons_self a l)])

theorem jsTrim_of_all (l : List Char) (h : ∀ c ∈ l, isJsWs c = false) : jsTrimL l = l := by
  unfold jsTrimL
  rw [dropWhile_of_all_neg _ _ h]
  exact trimRight_of_all l h

theorem firstTok_of_all (l : List Char) (h : ∀ c ∈ l, isJsWs c = false) : firstTok l = l := by
  unfold firstTok
  refine List.takeWhile_eq_self_iff.mpr ?_
  intro x hx
  simp [h x hx]

theorem stripArt_of_all (l : List Char) (h : ∀ c ∈ l, notArtifact c = true) :
    stripArt l = l :=
  List.filter_eq_self.mpr (fun a ha => h a ha)

/-! Digit strings run the `^[0-9]+$` short-circuit of the source and come
back verbatim. -/

theorem tokenAtomic_digits (tok : List Char) (d : Nat) (h1 : tok ≠ [])
    (h2 : ∀ c ∈ tok, isDigitC c = true) : tokenAtomic tok d = some tok := by
  unfold tokenAtomic
  rw [if_neg h1, if_pos (List.all_eq_true.mpr h2)]

theorem repairL_digits (cs : List Char) (d : Nat) (h1 : cs ≠ [])
    (h2 : ∀ c ∈ cs, isDigitC c = true) : repairL cs d = cs := by
  have hws : ∀ c ∈ cs, isJsWs c = false := fun c hc => not_ws_of_digit c (h2 c hc)
  have htrim : jsTrimL cs = cs := jsTrim_of_all cs hws
  have hart : stripArt cs = cs := stripArt_of_all cs (fun c hc => notArtifact_of_digit c (h2 c hc))
  have htok : firstTok cs = cs := firstTok_of_all cs hws
  unfold repairL
  rw [htrim, if_neg h1, hart, htok, tokenAtomic_digits cs d h1 h2]

theorem string_data_ne_nil (s : String) (h : s ≠ "") : s.data ≠ [] := by
  intro hnil
  apply h
  cases s
  simp only at hnil
  simp [hnil]

/-- C5: for every string consisting only of decimal digits (the regex
`^[0-9]+$`), both `coerceUsdtAtomic` and `coerceSolLamports` return the
string unchanged. -/
theorem c5_integer_strings_pass_through (s : String) (h1 : s ≠ "")
    (h2 : ∀ c ∈ s.data, isDigitC c = true) :
    coerceUsdtAtomic (JsValue.vStr s) = JsValue.vStr s
    ∧ coerceSolLamports (JsValue.vStr s) = JsValue.vStr s := by
  have hd : s.data ≠ [] := string_data_ne_nil s h1
  constructor
  · show JsValue.vStr (decimalStringRepair s 6) = JsValue.vStr s
    unfold decimalStringRepair
    rw [repairL_digits s.data 6 hd h2]
  · show JsValue.vStr (decimalStringRepair s 9) = JsValue.vStr s
    unfold decimalStringRepair
    rw [repairL_digits s.data 9 hd h2]

/-- C5 witness: `coerceUsdtAtomic("120000") = "120000"`. -/
theorem c5_witness :
    coerceUsdtAtomic (JsValue.vStr "120000") = JsValue.vStr "120000" :=
  (c5_integer_strings_pass_through "120000" (by decide) (by decide)).1

/-! Big-integer arithmetic over digit lists. -/

theorem natOfDigitsAux_nil (a : Nat) : natOfDigitsAux a [] = a := rfl

theorem natOfDigitsAux_cons (a : Nat) (c : Char) (cs : List Char) :
    natOfDigitsAux a (c :: cs) = natOfDigitsAux (a * 10 + (c.toNat - 48)) cs := rfl

theorem natOfDigitsAux_append (a : Nat) (xs ys : List Char) :
    natOfDigitsAux a (xs ++ ys) = natOfDigitsAux (natOfDigitsAux a xs) ys := by
  induction xs generalizing a with
  | nil => rfl
  | cons c cs ih =>
    rw [List.cons_append, natOfDigitsAux_cons, natOfDigitsAux_cons]
    exact ih _

theorem natOfDigitsAux_zeros (a k : Nat) :
    natOfDigitsAux a (List.replicate k '0') = a * 10 ^ k := by
  induction k generalizing a with
  | zero => rw [List.replicate_zero, natOfDigitsAux_nil, pow_zero, mul_one]
  | succ k ih =>
    rw [List.replicate_succ, natOfDigitsAux_cons, ih]
    have h0 : ('0'.toNat - 48) = 0 := rfl
    rw [h0]
    ring

theorem natOfDigits_pad (fp : List Char) (k : Nat) :
    natOfDigitsL (fp ++ List.replicate k '0') = natOfDigitsL fp * 10 ^ k := by
  unfold natOfDigitsL
  rw [natOfDigitsAux_append, natOfDigitsAux_zeros]

theorem padded_take (fp : List Char) (d : Nat) (h : fp.length ≤ d) :
    (fp ++ List.replicate d '0').take d = fp ++ List.replicate (d - fp.length) '0' := by
  rw [List.take_append_eq_append_take, List.take_of_length_le h, List.take_replicate,
    Nat.min_eq_left (Nat.sub_le d fp.length)]

theorem atomicOf_value (ip fp : List Char) (d : Nat) (h : fp.length ≤ d) :
    atomicOf ip fp d =
      natToDigits (natOfDigitsL ip * 10 ^ d + natOfDigitsL fp * 10 ^ (d - fp.length)) := by
  unfold atomicOf
  rw [padded_take fp d h, natOfDigits_pad]

/-! The regex path taken by a plain nonnegative decimal numeral. -/

theorem stripPlus_of_ne (a : Char) (l : List Char) (h : a ≠ '+') :
    stripPlus (a :: l) = a :: l := by
  simp [stripPlus, h]

theorem parseDecL_decimal (ip fp : List Char) (hip1 : ip ≠ [])
    (hip2 : ∀ c ∈ ip, isDigitC c = true) (hfp1 : fp ≠ [])
    (hfp2 : ∀ c ∈ fp, isDigitC c = true) :
    parseDecL (ip ++ '.' :: fp) = some (ip, fp) := by
  obtain ⟨a, ip2, rfl⟩ : ∃ a ip2, ip = a :: ip2 := by
    cases ip with
    | nil => exact absurd rfl hip1
    | cons a ip2 => exact ⟨a, ip2, rfl⟩
  have ha : isDigitC a = true := hip2 a (List.mem_cons_self _ _)
  have hplus : a ≠ '+' := by rintro rfl; exact absurd ha (by decide)
  have hdot : ¬ (isDigitC '.' = true) := by decide
  unfold parseDecL
  rw [List.cons_append, stripPlus_of_ne a _ hplus, ← List.cons_append,
    List.takeWhile_append_of_pos hip2, List.takeWhile_cons_of_neg hdot, List.append_nil,
    List.dropWhile_append_of_pos hip2, List.dropWhile_cons_of_neg hdot,
    if_neg (List.cons_ne_nil a ip2)]
  simp only [parseDecTail]
  rw [if_pos ⟨hfp1, List.all_eq_true.mpr hfp2⟩]

theorem tokenAtomic_decimal (ip fp : List Char) (d : Nat) (hip1 : ip ≠ [])
    (hip2 : ∀ c ∈ ip, isDigitC c = true) (hfp1 : fp ≠ [])
    (hfp2 : ∀ c ∈ fp, isDigitC c = true) (hlen : fp.length ≤ d) :
    tokenAtomic (ip ++ '.' :: fp) d = some (atomicOf ip fp d) := by
  have htokne : ip ++ '.' :: fp ≠ [] := List.append_ne_nil_of_left_ne_nil hip1 _
  have hnotall : ((ip ++ '.' :: fp).all isDigitC) = false := by
    cases hall : (ip ++ '.' :: fp).all isDigitC with
    | false => rfl
    | true => exact absurd (List.all_eq_true.mp hall '.' (by simp)) (by decide)
  obtain ⟨a, ip2, rfl⟩ : ∃ a ip2, ip = a :: ip2 := by
    cases ip with
    | nil => exact absurd rfl hip1
    | cons a ip2 => exact ⟨a, ip2, rfl⟩
  have ha : isDigitC a = true := hip2 a (List.mem_cons_self _ _)
  have hadot : a ≠ '.' := by rintro rfl; exact absurd ha (by decide)
  obtain ⟨fp0, b, hfpeq⟩ : ∃ L b, fp = L ++ [b] := by
    rcases List.eq_nil_or_concat fp with h | ⟨L, b, h⟩
    · exact absurd h hfp1
    · exact ⟨L, b, by simpa using h⟩
  have hb : isDigitC b = true := hfp2 b (by simp [hfpeq])
  have hbdot : b ≠ '.' := by rintro rfl; exact absurd hb (by decide)
  have hstart : startDotFix ((a :: ip2) ++ '.' :: fp) = (a :: ip2) ++ '.' :: fp := by
    simp [startDotFix, hadot]
  have hlast : ((a :: ip2) ++ '.' :: fp).getLast? = some b := by
    rw [hfpeq]
    have hregroup : (a :: ip2) ++ '.' :: (fp0 ++ [b]) = ((a :: ip2) ++ '.' :: fp0) ++ [b] := by
      simp
    rw [hregroup, List.getLast?_concat]
  have hlastne : ¬ (((a :: ip2) ++ '.' :: fp).getLast? = some '.') := by
    rw [hlast]
    simp [hbdot]
  have hend : endDotFix ((a :: ip2) ++ '.' :: fp) = (a :: ip2) ++ '.' :: fp := by
    unfold endDotFix
    rw [if_neg hlastne]
  unfold tokenAtomic
  rw [if_neg htokne, hnotall]
  rw [if_neg (by simp : ¬ (false = true))]
  rw [hstart, hend, parseDecL_decimal (a :: ip2) fp hip1 hip2 hfp1 hfp2]
  show (if d < fp.length then none else some (atomicOf (a :: ip2) fp d))
    = some (atomicOf (a :: ip2) fp d)
  rw [if_neg (Nat.not_lt.mpr hlen)]

theorem repairL_decimal (ip fp : List Char) (d : Nat) (hip1 : ip ≠ [])
    (hip2 : ∀ c ∈ ip, isDigitC c = true) (hfp1 : fp ≠ [])
    (hfp2 : ∀ c ∈ fp, isDigitC c = true) (hlen : fp.length ≤ d) :
    repairL (ip ++ '.' :: fp) d = atomicOf ip fp d := by
  have hws : ∀ c ∈ ip ++ '.' :: fp, isJsWs c = false := by
    intro c hc
    rcases List.mem_append.mp hc with h | h
    · exact not_ws_of_digit c (hip2 c h)
    · rcases List.mem_cons.mp h with rfl | h
      · decide
      · exact not_ws_of_digit c (hfp2 c h)
  have hart : ∀ c ∈ ip ++ '.' :: fp, notArtifact c = true := by
    intro c hc
    rcases List.mem_append.mp hc with h | h
    · exact notArtifact_of_digit c (hip2 c h)
    · rcases List.mem_cons.mp h with rfl | h
      · decide
      · exact notArtifact_of_digit c (hfp2 c h)
  have hne : ip ++ '.' :: fp ≠ [] := List.append_ne_nil_of_left_ne_nil hip1 _
  unfold repairL
  rw [jsTrim_of_all _ hws, if_neg hne, stripArt_of_all _ hart, firstTok_of_all _ hws,
    tokenAtomic_decimal ip fp d hip1 hip2 hfp1 hfp2 hlen]

/-- C4: a decimal string `ip.fp` of a nonnegative value with at most
`decimals` fractional digits is converted by the coercion into the decimal
string of the exact integer `value * 10^decimals`, computed with
arbitrary-precision arithmetic: the integer part contributes
`ip * 10^d` and the fractional part `fp * 10^(d - |fp|)`. -/
theorem c4_decimal_to_atomic (ip fp : String) (d : Nat)
    (hip : ip ≠ "" ∧ ∀ c ∈ ip.data, isDigitC c = true)
    (hfp : fp ≠ "" ∧ ∀ c ∈ fp.data, isDigitC c = true)
    (hlen : fp.length ≤ d) :
    decimalToAtomicString (JsValue.vStr (ip ++ "." ++ fp)) d =
      JsValue.vStr ⟨natToDigits (natOfDigits ip * 10 ^ d +
        natOfDigits fp * 10 ^ (d - fp.length))⟩ := by
  have hdata : (ip ++ "." ++ fp).data = ip.data ++ '.' :: fp.data := by
    simp [String.data_append]
  have hlen2 : fp.data.length ≤ d := hlen
  show JsValue.vStr (decimalStringRepair (ip ++ "." ++ fp) d) = _
  unfold decimalStringRepair
  rw [hdata, repairL_decimal ip.data fp.data d (string_data_ne_nil ip hip.1) hip.2
    (string_data_ne_nil fp hfp.1) hfp.2 hlen2, atomicOf_value ip.data fp.data d hlen2]
  rfl

/-- C4 witness: `coerceUsdtAtomic("0.12") = "120000"` and
`coerceSolLamports("0.01") = "10000000"`, obtained from the general
theorem at its concrete inputs. -/
theorem c4_witness :
    coerceUsdtAtomic (JsValue.vStr "0.12") = JsValue.vStr "120000"
    ∧ coerceSolLamports (JsValue.vStr "0.01") = JsValue.vStr "10000000" := by
  have h1 := c4_decimal_to_atomic "0" "12" 6 ⟨by decide, by decide⟩ ⟨by decide, by decide⟩
    (by decide)
  have h2 := c4_decimal_to_atomic "0" "01" 9 ⟨by decide, by decide⟩ ⟨by decide, by decide⟩
    (by decide)
  constructor
  · have e1 : ("0" ++ "." ++ "12" : String) = "0.12" := by decide
    have e2 : (⟨natToDigits (natOfDigits "0" * 10 ^ 6 + natOfDigits "12" * 10 ^ (6 - ("12" : String).length))⟩ : String) = "120000" := by decide
    rw [e1, e2] at h1
    exact h1
  · have e1 : ("0" ++ "." ++ "01" : String) = "0.01" := by decide
    have e2 : (⟨natToDigits (natOfDigits "0" * 10 ^ 9 + natOfDigits "01" * 10 ^ (9 - ("01" : String).length))⟩ : String) = "10000000" := by decide
    rw [e1, e2] at h2
    exact h2

/-! A whitespace-separated trailing suffix never reaches the parser: the
pipeline keeps only the first token. -/

theorem repairL_token_suffix (t us : List Char) (d : Nat) (out : List Char)
    (ht : t ≠ []) (hws : ∀ c ∈ t, isJsWs c = false)
    (hsucc : tokenAtomic (stripArt t) d = some out) :
    repairL (t ++ ' ' :: us) d = out ∧ repairL t d = out := by
  have hstripws : ∀ c ∈ stripArt t, isJsWs c = false :=
    fun c hc => hws c (List.mem_of_mem_filter hc)
  have hbare : repairL t d = out := by
    unfold repairL
    rw [jsTrim_of_all t hws, if_neg ht, firstTok_of_all _ hstripws, hsucc]
  refine ⟨?_, hbare⟩
  obtain ⟨a, t2, rfl⟩ : ∃ a t2, t = a :: t2 := by
    cases t with
    | nil => exact absurd rfl ht
    | cons a t2 => exact ⟨a, t2, rfl⟩
  have hdrop : ((a :: t2) ++ ' ' :: us).dropWhile isJsWs = (a :: t2) ++ ' ' :: us := by
    rw [List.cons_append]
    exact List.dropWhile_cons_of_neg (by simp [hws a (List.mem_cons_self a t2)])
  rcases trimRight_cons_shape ' ' us with hnil | ⟨r, hr⟩
  · have htrim : jsTrimL ((a :: t2) ++ ' ' :: us) = a :: t2 := by
      unfold jsTrimL
      rw [hdrop, trimRight_append_nil _ _ hnil, trimRight_of_all _ hws]
    unfold repairL
    rw [htrim, if_neg ht, firstTok_of_all _ hstripws, hsucc]
  · have hrne : trimRightL (' ' :: us) ≠ [] := by rw [hr]; exact List.cons_ne_nil _ _
    have htrim : jsTrimL ((a :: t2) ++ ' ' :: us) = (a :: t2) ++ ' ' :: r := by
      unfold jsTrimL
      rw [hdrop, trimRight_append_ne _ _ hrne, hr]
    have hspace : List.filter notArtifact (' ' :: r) = ' ' :: List.filter notArtifact r :=
      List.filter_cons_of_pos (by decide)
    have hstrip : stripArt ((a :: t2) ++ ' ' :: r) = stripArt (a :: t2) ++ ' ' :: stripArt r := by
      unfold stripArt
      rw [List.filter_append, hspace]
    have htok : firstTok (stripArt (a :: t2) ++ ' ' :: stripArt r) = stripArt (a :: t2) := by
      unfold firstTok
      rw [List.takeWhile_append_of_pos (by intro x hx; simp [hstripws x hx]),
        List.takeWhile_cons_of_neg (by decide), List.append_nil]
    have hne2 : (a :: t2) ++ ' ' :: r ≠ [] := List.append_ne_nil_of_left_ne_nil ht _
    unfold repairL
    rw [htrim, if_neg hne2, hstrip, htok, hsucc]

/-- C7: conservative artifact stripping — underscores and commas are
removed before parsing and only the first whitespace-separated token is
kept, so whenever that stripped token is repairable, a trailing unit
suffix after whitespace changes nothing: the input with suffix coerces
exactly as the bare token does. -/
theorem c7_artifact_stripping (t us : List Char) (d : Nat) (out : List Char)
    (ht : t ≠ []) (hws : ∀ c ∈ t, isJsWs c = false)
    (hsucc : tokenAtomic (stripArt t) d = some out) :
    decimalToAtomicString (JsValue.vStr ⟨t ++ ' ' :: us⟩) d = JsValue.vStr ⟨out⟩
    ∧ decimalToAtomicString (JsValue.vStr ⟨t⟩) d = JsValue.vStr ⟨out⟩ := by
  have h := repairL_token_suffix t us d out ht hws hsucc
  constructor
  · show JsValue.vStr (decimalStringRepair ⟨t ++ ' ' :: us⟩ d) = JsValue.vStr ⟨out⟩
    unfold decimalStringRepair
    rw [show ((⟨t ++ ' ' :: us⟩ : String).data) = t ++ ' ' :: us from rfl, h.1]
  · show JsValue.vStr (decimalStringRepair ⟨t⟩ d) = JsValue.vStr ⟨out⟩
    unfold decimalStringRepair
    rw [show ((⟨t⟩ : String).data) = t from rfl, h.2]

/-- C7 witness: `coerceUsdtAtomic("0.12 usdt") = coerceUsdtAtomic("0.12")
= "120000"`. -/
theorem c7_witness :
    coerceUsdtAtomic (JsValue.vStr "0.12 usdt") = JsValue.vStr "120000"
    ∧ coerceUsdtAtomic (JsValue.vStr "0.12") = JsValue.vStr "120000" := by
  have h := c7_artifact_stripping "0.12".data "usdt".data 6 "120000".data
    (by decide) (by decide) (by decide)
  have e1 : (⟨"0.12".data ++ ' ' :: "usdt".data⟩ : String) = "0.12 usdt" := by decide
  have e2 : (⟨("0.12" : String).data⟩ : String) = "0.12" := by decide
  have e3 : (⟨("120000" : String).data⟩ : String) = "120000" := by decide
  rw [e1, e2, e3] at h
  exact h

/-! A token starting with a minus sign can never be repaired: the regex
admits no sign other than `+`. -/

theorem parseDecL_minus (l : List Char) : parseDecL ('-' :: l) = none := by
  unfold parseDecL
  rw [stripPlus_of_ne '-' l (by decide),
    List.takeWhile_cons_of_neg (by decide : ¬ (isDigitC '-' = true)), if_pos rfl]

theorem tokenAtomic_minus (l : List Char) (d : Nat) : tokenAtomic ('-' :: l) d = none := by
  have hnotall : (('-' :: l).all isDigitC) = false := by
    cases hall : ('-' :: l).all isDigitC with
    | false => rfl
    | true => exact absurd (List.all_eq_true.mp hall '-' (by simp)) (by decide)
  have hstart : startDotFix ('-' :: l) = '-' :: l := by
    unfold startDotFix
    rw [List.head?_cons, if_neg]
    intro hcon
    exact absurd (Option.some.inj hcon) (by decide)
  have hend : ∃ X, endDotFix ('-' :: l) = '-' :: X := by
    unfold endDotFix
    by_cases hgl : (('-' : Char) :: l).getLast? = some '.'
    · rw [if_pos hgl]
      exact ⟨l ++ ['0'], by simp⟩
    · rw [if_neg hgl]
      exact ⟨l, rfl⟩
  obtain ⟨X, hX⟩ := hend
  unfold tokenAtomic
  rw [if_neg (List.cons_ne_nil '-' l), hnotall, if_neg (by simp : ¬ (false = true)),
    hstart, hX, parseDecL_minus X]

theorem repairL_minus (l : List Char) (d : Nat)
    (hws : ∀ c ∈ '-' :: l, isJsWs c = false)
    (hart : ∀ c ∈ '-' :: l, notArtifact c = true) :
    repairL ('-' :: l) d = '-' :: l := by
  unfold repairL
  rw [jsTrim_of_all _ hws, if_neg (List.cons_ne_nil '-' l), stripArt_of_all _ hart,
    firstTok_of_all _ hws, tokenAtomic_minus l d]

theorem jsToFixed_chars (n : Int) (d : Nat) (hn : n < 0) :
    ∃ l, (jsToFixedInt n d).data = '-' :: l
      ∧ (∀ c ∈ '-' :: l, isJsWs c = false)
      ∧ (∀ c ∈ '-' :: l, notArtifact c = true) := by
  refine ⟨natToDigits n.natAbs ++ (if d = 0 then [] else '.' :: List.replicate d '0'),
    ?_, ?_, ?_⟩
  · have h1 : (jsToFixedInt n d).data
        = (if n < 0 then ['-'] else []) ++ natToDigits n.natAbs
          ++ (if d = 0 then [] else '.' :: List.replicate d '0') := rfl
    rw [h1, if_pos hn, List.append_assoc]
    rfl
  · intro c hc
    rcases List.mem_cons.mp hc with rfl | hc
    · decide
    · rcases List.mem_append.mp hc with h | h
      · exact not_ws_of_digit c (natToDigits_digits _ c h)
      · split at h
        · cases h
        · rcases List.mem_cons.mp h with rfl | h
          · decide
          · rw [List.eq_of_mem_replicate h]
            decide
  · intro c hc
    rcases List.mem_cons.mp hc with rfl | hc
    · decide
    · rcases List.mem_append.mp hc with h | h
      · exact notArtifact_of_digit c (natToDigits_digits _ c h)
      · split at h
        · cases h
        · rcases List.mem_cons.mp h with rfl | h
          · decide
          · rw [List.eq_of_mem_replicate h]
            decide

theorem fixed_neg_string (n : Int) (d : Nat) (hn : n < 0) :
    decimalStringRepair (jsToFixedInt n d) d = jsToFixedInt n d
    ∧ stringRepairable (jsToFixedInt n d) d = false := by
  obtain ⟨l, hl, hws, hart⟩ := jsToFixed_chars n d hn
  have htrim : jsTrimL (jsToFixedInt n d).data = '-' :: l := by
    rw [hl]
    exact jsTrim_of_all _ hws
  constructor
  · unfold decimalStringRepair
    rw [hl, repairL_minus l d hws hart]
    exact String.ext hl.symm
  · unfold stringRepairable
    rw [htrim, stripArt_of_all _ hart, firstTok_of_all _ hws, tokenAtomic_minus l d]
    rfl

theorem decimalToAtomic_neg (n : Int) (d : Nat) (hn : n < 0) :
    decimalToAtomicString (JsValue.vInt n) d = JsValue.vStr (jsToFixedInt n d) := by
  show (if 0 ≤ n then JsValue.vStr ⟨natToDigits n.toNat⟩
    else JsValue.vStr (decimalStringRepair (jsToFixedInt n d) d)) = _
  rw [if_neg (Int.not_le.mpr hn), (fixed_neg_string n d hn).1]

/-- C6 counterexample: the claim promises every negative input comes back
unchanged, but the coercer turns the number `-5` into the *string*
`"-5.000000"` (the `toFixed` rendering fed back through the string
branch), which is not the original value. -/
theorem c6_counterexample :
    coerceUsdtAtomic (JsValue.vInt (-5)) = JsValue.vStr "-5.000000"
    ∧ JsValue.vStr "-5.000000" ≠ JsValue.vInt (-5) := by
  constructor
  · have h := decimalToAtomic_neg (-5) 6 (by decide)
    have e : jsToFixedInt (-5) 6 = "-5.000000" := by decide
    rw [e] at h
    exact h
  · intro h
    cases h

/-- C6 (amended): out-of-range or unparseable *string* input is returned
unchanged, as are `null`, `undefined`, non-finite numbers, booleans,
arrays and objects; a finite negative integer number, however, is
returned as its fixed-decimal string rendering — itself unrepairable —
rather than as the original number. -/
theorem c6_unparseable_unchanged :
    (∀ (s : String) (d : Nat), stringRepairable s d = false →
      decimalToAtomicString (JsValue.vStr s) d = JsValue.vStr s)
    ∧ (∀ d : Nat, decimalToAtomicString JsValue.vNull d = JsValue.vNull
        ∧ decimalToAtomicString JsValue.vUndef d = JsValue.vUndef
        ∧ decimalToAtomicString JsValue.vNanInf d = JsValue.vNanInf)
    ∧ (∀ (b : Bool) (d : Nat), decimalToAtomicString (JsValue.vBool b) d = JsValue.vBool b)
    ∧ (∀ (xs : List JsValue) (d : Nat),
        decimalToAtomicString (JsValue.vArr xs) d = JsValue.vArr xs)
    ∧ (∀ (o : Obj) (d : Nat), decimalToAtomicString (JsValue.vObj o) d = JsValue.vObj o)
    ∧ (∀ (n : Int) (d : Nat), n < 0 →
        decimalToAtomicString (JsValue.vInt n) d = JsValue.vStr (jsToFixedInt n d)
        ∧ stringRepairable (jsToFixedInt n d) d = false) := by
  refine ⟨?_, fun d => ⟨rfl, rfl, rfl⟩, fun b d => rfl, fun xs d => rfl, fun o d => rfl,
    fun n d hn => ⟨decimalToAtomic_neg n d hn, (fixed_neg_string n d hn).2⟩⟩
  intro s d hrep
  show JsValue.vStr (decimalStringRepair s d) = JsValue.vStr s
  unfold decimalStringRepair
  unfold stringRepairable at hrep
  by_cases h1 : jsTrimL s.data = []
  · unfold repairL
    rw [if_pos h1]
  · have h2 : (tokenAtomic (firstTok (stripArt (jsTrimL s.data))) d).isSome = false := by
      cases hW : (tokenAtomic (firstTok (stripArt (jsTrimL s.data))) d).isSome with
      | false => rfl
      | true =>
        rw [hW] at hrep
        have hemp : (jsTrimL s.data).isEmpty = false := by
          cases hE : (jsTrimL s.data).isEmpty with
          | false => rfl
          | true => exact absurd (List.isEmpty_iff.mp hE) h1
        rw [hemp] at hrep
        cases hrep
    have h3 : tokenAtomic (firstTok (stripArt (jsTrimL s.data))) d = none :=
      Option.not_isSome_iff_eq_none.mp (by rw [h2]; exact Bool.false_ne_true)
    unfold repairL
    rw [if_neg h1, h3]

/-- C6 witness: `coerceUsdtAtomic("not-a-number") = "not-a-number"`. -/
theorem c6_witness :
    coerceUsdtAtomic (JsValue.vStr "not-a-number") = JsValue.vStr "not-a-number" :=
  c6_unparseable_unchanged.1 "not-a-number" 6 (by decide)

/-! Idempotence of the coercers. -/

theorem tokenAtomic_some (tok out : List Char) (d : Nat)
    (h : tokenAtomic tok d = some out) : out ≠ [] ∧ ∀ c ∈ out, isDigitC c = true := by
  unfold tokenAtomic at h
  by_cases h1 : tok = []
  · rw [if_pos h1] at h
    cases h
  · rw [if_neg h1] at h
    by_cases h2 : tok.all isDigitC = true
    · rw [if_pos h2] at h
      injection h with h3
      subst h3
      exact ⟨h1, List.all_eq_true.mp h2⟩
    · rw [if_neg h2] at h
      cases hp : parseDecL (endDotFix (startDotFix tok)) with
      | none =>
        rw [hp] at h
        cases h
      | some pr =>
        obtain ⟨ip, fp⟩ := pr
        rw [hp] at h
        have h5 : (if d < fp.length then none else some (atomicOf ip fp d)) = some out := h
        by_cases h3 : d < fp.length
        · rw [if_pos h3] at h5
          cases h5
        · rw [if_neg h3] at h5
          injection h5 with h6
          subst h6
          exact ⟨natToDigits_ne_nil _, natToDigits_digits _⟩

theorem repairL_cases (cs : List Char) (d : Nat) :
    repairL cs d = cs ∨ (repairL cs d ≠ [] ∧ ∀ c ∈ repairL cs d, isDigitC c = true) := by
  unfold repairL
  by_cases h1 : jsTrimL cs = []
  · rw [if_pos h1]
    left
    rfl
  · rw [if_neg h1]
    cases htok : tokenAtomic (firstTok (stripArt (jsTrimL cs))) d with
    | none => left; rfl
    | some out =>
      right
      exact tokenAtomic_some _ out d htok

theorem repairL_idem (cs : List Char) (d : Nat) :
    repairL (repairL cs d) d = repairL cs d := by
  rcases repairL_cases cs d with h | ⟨h1, h2⟩
  · rw [h]
    exact h
  · exact repairL_digits _ d h1 h2

theorem decimalToAtomic_idem (v : JsValue) (d : Nat) :
    decimalToAtomicString (decimalToAtomicString v d) d = decimalToAtomicString v d := by
  cases v with
  | vNull => rfl
  | vUndef => rfl
  | vNanInf => rfl
  | vBool b => rfl
  | vArr xs => rfl
  | vObj o => rfl
  | vStr s =>
    show decimalToAtomicString (JsValue.vStr (decimalStringRepair s d)) d
      = JsValue.vStr (decimalStringRepair s d)
    show JsValue.vStr (decimalStringRepair (decimalStringRepair s d) d)
      = JsValue.vStr (decimalStringRepair s d)
    unfold decimalStringRepair
    rw [show ((⟨repairL s.data d⟩ : String).data) = repairL s.data d from rfl, repairL_idem]
  | vInt n =>
    by_cases hn : 0 ≤ n
    · have hfix : decimalToAtomicString (JsValue.vInt n) d = JsValue.vStr ⟨natToDigits n.toNat⟩ := by
        show (if 0 ≤ n then JsValue.vStr ⟨natToDigits n.toNat⟩
          else JsValue.vStr (decimalStringRepair (jsToFixedInt n d) d)) = _
        rw [if_pos hn]
      rw [hfix]
      show JsValue.vStr (decimalStringRepair ⟨natToDigits n.toNat⟩ d)
        = JsValue.vStr ⟨natToDigits n.toNat⟩
      unfold decimalStringRepair
      rw [show ((⟨natToDigits n.toNat⟩ : String).data) = natToDigits n.toNat from rfl,
        repairL_digits _ d (natToDigits_ne_nil _) (natToDigits_digits _)]
    · have hn2 : n < 0 := Int.not_le.mp hn
      rw [decimalToAtomic_neg n d hn2]
      show JsValue.vStr (decimalStringRepair (jsToFixedInt n d) d)
        = JsValue.vStr (jsToFixedInt n d)
      rw [(fixed_neg_string n d hn2).1]

/-- C9 counterexample: the coercer's output is not always the input value
or a pure digit string — the negative number `-7` coerces to the string
`"-7.000000000"` under `coerceSolLamports`, which is neither. -/
theorem c9_counterexample :
    coerceSolLamports (JsValue.vInt (-7)) = JsValue.vStr "-7.000000000"
    ∧ JsValue.vStr "-7.000000000" ≠ JsValue.vInt (-7)
    ∧ ("-7.000000000" : String).data.all isDigitC = false := by
  have h := decimalToAtomic_neg (-7) 9 (by decide)
  have e : jsToFixedInt (-7) 9 = "-7.000000000" := by decide
  rw [e] at h
  refine ⟨h, ?_, by decide⟩
  intro hcon
  cases hcon

/-- C9 (amended): both coercers are idempotent on every value — a second
application never changes the result.  (The output is the input itself, a
pure digit string, or the fixed-decimal rendering of a negative number,
and each of these is a fixed point.) -/
theorem c9_idempotent (v : JsValue) :
    coerceUsdtAtomic (coerceUsdtAtomic v) = coerceUsdtAtomic v
    ∧ coerceSolLamports (coerceSolLamports v) = coerceSolLamports v :=
  ⟨decimalToAtomic_idem v 6, decimalToAtomic_idem v 9⟩

/-! Association-list facts for the object model. -/

theorem getO_setO_self (o : Obj) (k : String) (v : JsValue) :
    getO (setO o k v) k = some v := by
  induction o with
  | nil => simp [setO, getO]
  | cons p o ih =>
    obtain ⟨k1, v1⟩ := p
    by_cases h : k1 = k
    · simp [setO, h, getO]
    · simp [setO, h, getO, ih]

theorem getO_setO_other (o : Obj) (k k2 : String) (v : JsValue) (h : k2 ≠ k) :
    getO (setO o k v) k2 = getO o k2 := by
  induction o with
  | nil =>
    simp only [setO, getO]
    rw [if_neg (fun hx => h hx.symm)]
  | cons p o ih =>
    obtain ⟨k1, v1⟩ := p
    simp only [setO]
    by_cases h1 : k1 = k
    · rw [if_pos h1]
      subst h1
      simp only [getO]
      rw [if_neg (fun hx => h hx.symm), if_neg (fun hx => h hx.symm)]
    · rw [if_neg h1]
      simp only [getO]
      by_cases h2 : k1 = k2
      · rw [if_pos h2, if_pos h2]
      · rw [if_neg h2, if_neg h2, ih]

theorem getO_delO_self (o : Obj) (k : String) : getO (delO o k) k = none := by
  induction o with
  | nil => simp [delO, getO]
  | cons p o ih =>
    obtain ⟨k1, v1⟩ := p
    by_cases h : k1 = k
    · simp [delO, h, ih]
    · simp [delO, h, getO, ih]

theorem getO_delO_other (o : Obj) (k k2 : String) (h : k2 ≠ k) :
    getO (delO o k) k2 = getO o k2 := by
  induction o with
  | nil => simp [delO]
  | cons p o ih =>
    obtain ⟨k1, v1⟩ := p
    simp only [delO]
    by_cases h1 : k1 = k
    · rw [if_pos h1]
      subst h1
      simp only [getO]
      rw [if_neg (fun hx => h hx.symm), ih]
    · rw [if_neg h1]
      simp only [getO]
      by_cases h2 : k1 = k2
      · rw [if_pos h2, if_pos h2]
      · rw [if_neg h2, if_neg h2, ih]

theorem hasK_setO_other (o : Obj) (k k2 : String) (v : JsValue) (h : k2 ≠ k) :
    hasK (setO o k v) k2 = hasK o k2 := by
  unfold hasK
  rw [getO_setO_other o k k2 v h]

theorem hasK_delO (o : Obj) (k k2 : String) (h : hasK o k2 = false) :
    hasK (delO o k) k2 = false := by
  unfold hasK at h ⊢
  by_cases h1 : k2 = k
  · subst h1
    rw [getO_delO_self]
    rfl
  · rw [getO_delO_other o k k2 h1]
    exact h

theorem getO_foldl_delO_not_mem (ks : List String) (o : Obj) (k : String) (h : k ∉ ks) :
    getO (ks.foldl (fun acc k2 => delO acc k2) o) k = getO o k := by
  induction ks generalizing o with
  | nil => rfl
  | cons k0 ks ih =>
    have h1 : k ≠ k0 := fun hx => h (hx ▸ List.mem_cons_self k0 ks)
    have h2 : k ∉ ks := fun hx => h (List.mem_cons_of_mem k0 hx)
    rw [List.foldl_cons, ih (delO o k0) h2, getO_delO_other o k0 k h1]

theorem hasK_foldl_delO_false (ks : List String) (o : Obj) (k : String)
    (h : hasK o k = false) :
    hasK (ks.foldl (fun acc k2 => delO acc k2) o) k = false := by
  induction ks generalizing o with
  | nil => exact h
  | cons k0 ks ih =>
    rw [List.foldl_cons]
    exact ih (delO o k0) (hasK_delO o k0 k h)

theorem hasK_foldl_delO_mem (ks : List String) (o : Obj) (k : String) (h : k ∈ ks) :
    hasK (ks.foldl (fun acc k2 => delO acc k2) o) k = false := by
  induction ks generalizing o with
  | nil => cases h
  | cons k0 ks ih =>
    rw [List.foldl_cons]
    by_cases h1 : k = k0
    · subst h1
      refine hasK_foldl_delO_false ks (delO o k) k ?_
      unfold hasK
      rw [getO_delO_self]
      rfl
    · have h2 : k ∈ ks := by
        rcases List.mem_cons.mp h with hx | hx
        · exact absurd hx h1
        · exact hx
      exact ih (delO o k0) h2

/-! The no-silent-override merge. -/

theorem mergeMissing_existing (src : Obj) (ks : List String) :
    ∀ (base : Obj) (k : String), hasK base k = true →
      getO (mergeMissing base src ks) k = getO base k := by
  induction ks with
  | nil => intro base k _; rfl
  | cons k0 ks ih =>
    intro base k h
    show getO (mergeMissing (if hasK base k0 = true then base
      else setO base k0 (getD src k0)) src ks) k = getO base k
    by_cases h0 : hasK base k0 = true
    · rw [if_pos h0]
      exact ih base k h
    · rw [if_neg h0]
      by_cases hk : k = k0
      · subst hk
        rw [h] at h0
        exact absurd rfl h0
      · have hk2 : hasK (setO base k0 (getD src k0)) k = true := by
          rw [hasK_setO_other base k0 k _ hk]
          exact h
        rw [ih (setO base k0 (getD src k0)) k hk2, getO_setO_other base k0 k _ hk]

theorem mergeMissing_new (src : Obj) (ks : List String) :
    ∀ (base : Obj) (k : String), k ∈ ks → hasK base k = false →
      getO (mergeMissing base src ks) k = some (getD src k) := by
  induction ks with
  | nil => intro base k h; cases h
  | cons k0 ks ih =>
    intro base k hmem hbase
    show getO (mergeMissing (if hasK base k0 = true then base
      else setO base k0 (getD src k0)) src ks) k = some (getD src k)
    by_cases hk : k = k0
    · subst hk
      rw [if_neg (by simp [hbase])]
      have hhas : hasK (setO base k (getD src k)) k = true := by
        unfold hasK
        rw [getO_setO_self]
        rfl
      rw [mergeMissing_existing src ks (setO base k (getD src k)) k hhas, getO_setO_self]
    · have hmem2 : k ∈ ks := by
        rcases List.mem_cons.mp hmem with hx | hx
        · exact absurd hx hk
        · exact hx
      by_cases h0 : hasK base k0 = true
      · rw [if_pos h0]
        exact ih base k hmem2 hbase
      · rw [if_neg h0]
        have hbase2 : hasK (setO base k0 (getD src k0)) k = false := by
          rw [hasK_setO_other base k0 k _ hk]
          exact hbase
        exact ih _ k hmem2 hbase2

/-! The channel fixup touches only the `channel`/`channels` keys. -/

theorem channelFix_getO (o : Obj) (k : String) (h1 : k ≠ "channels") (h2 : k ≠ "channel") :
    getO (channelFix o) k = getO o k := by
  unfold channelFix
  split
  · rfl
  · split
    · split
      · rw [getO_delO_other _ "channel" k h2, getO_setO_other o "channels" k _ h1]
      · rfl
    · rfl

theorem channelFix_hasK (o : Obj) (k : String) (h1 : k ≠ "channels") (h2 : k ≠ "channel") :
    hasK (channelFix o) k = hasK o k := by
  unfold hasK
  rw [channelFix_getO o k h1 h2]

theorem filter_congr_all (p q : String → Bool) :
    ∀ l : List String, (∀ x ∈ l, p x = q x) → l.filter p = l.filter q := by
  intro l h
  induction l with
  | nil => rfl
  | cons a l ih =>
    have ha := h a (List.mem_cons_self a l)
    have ih2 := ih (fun x hx => h x (List.mem_cons_of_mem a hx))
    rw [List.filter_cons, List.filter_cons, ha, ih2]

theorem offerKeys_ne_special (k : String) (h : k ∈ offerKeys) :
    k ≠ "offers" ∧ k ≠ "channels" ∧ k ≠ "channel" := by
  simp only [offerKeys, List.mem_cons, List.not_mem_nil, or_false] at h
  rcases h with rfl | rfl | rfl | rfl | rfl | rfl | rfl | rfl | rfl | rfl <;>
    exact ⟨by decide, by decide, by decide⟩

theorem flattenedOf_channelFix (o : Obj) : flattenedOf (channelFix o) = flattenedOf o := by
  unfold flattenedOf
  refine filter_congr_all _ _ offerKeys ?_
  intro k hk
  obtain ⟨_, hc1, hc2⟩ := offerKeys_ne_special k hk
  exact channelFix_hasK o k hc1 hc2

/-- C10: `repairToolArguments` is the identity outside its scope: any tool
other than the six handled ones gets its arguments back unchanged, any
non-object argument value is returned unchanged, and for the three
rfq/quote/terms tools every field other than `usdt_amount` keeps its
original value. -/
theorem c10_identity_outside_scope (toolName : String) (args : JsValue) :
    (toolName ∉ scopedTools → repairToolArguments toolName args = args)
    ∧ (isObjectV args = false → repairToolArguments toolName args = args)
    ∧ (toolName ∈ rfqLikeTools → ∀ o, args = JsValue.vObj o →
        ∀ k, k ≠ "usdt_amount" →
          getO (objFields (repairToolArguments toolName args)) k = getO o k) := by
  refine ⟨?_, ?_, ?_⟩
  · intro hscope
    have h1 : ¬ (toolName = "intercomswap_offer_post") := by
      intro h
      exact hscope (by rw [h]; decide)
    have h2 : ¬ (toolName ∈ rfqLikeTools) :=
      fun h => hscope (List.mem_cons_of_mem _ (List.mem_append_left _ h))
    have h3 : ¬ (toolName ∈ lamportTools) :=
      fun h => hscope (List.mem_cons_of_mem _ (List.mem_append_right _ h))
    cases args with
    | vObj o =>
      show (if toolName = "intercomswap_offer_post" then JsValue.vObj (repairOfferPost o)
        else if toolName ∈ rfqLikeTools then
          JsValue.vObj (coerceField o "usdt_amount" coerceUsdtAtomic)
        else if toolName ∈ lamportTools then
          JsValue.vObj (coerceField o "lamports" coerceSolLamports)
        else JsValue.vObj o) = JsValue.vObj o
      rw [if_neg h1, if_neg h2, if_neg h3]
    | vNull => rfl
    | vUndef => rfl
    | vNanInf => rfl
    | vBool b => rfl
    | vInt n => rfl
    | vStr s => rfl
    | vArr xs => rfl
  · intro hobj
    cases args with
    | vObj o => exact absurd hobj (by simp [isObjectV])
    | vNull => rfl
    | vUndef => rfl
    | vNanInf => rfl
    | vBool b => rfl
    | vInt n => rfl
    | vStr s => rfl
    | vArr xs => rfl
  · intro hrfq o hargs k hk
    subst hargs
    have h1 : ¬ (toolName = "intercomswap_offer_post") := by
      intro h
      rw [h] at hrfq
      exact absurd hrfq (by decide)
    show getO (objFields (if toolName = "intercomswap_offer_post" then
        JsValue.vObj (repairOfferPost o)
      else if toolName ∈ rfqLikeTools then
        JsValue.vObj (coerceField o "usdt_amount" coerceUsdtAtomic)
      else if toolName ∈ lamportTools then
        JsValue.vObj (coerceField o "lamports" coerceSolLamports)
      else JsValue.vObj o)) k = getO o k
    rw [if_neg h1, if_pos hrfq]
    show getO (coerceField o "usdt_amount" coerceUsdtAtomic) k = getO o k
    unfold coerceField
    by_cases hu : hasK o "usdt_amount" = true
    · rw [if_pos hu]
      exact getO_setO_other o "usdt_amount" k _ hk
    · rw [if_neg hu]

/-- C10 witness: an out-of-scope tool name, a non-object argument, and an
rfq-post field other than `usdt_amount`, each left untouched. -/
theorem c10_witness :
    repairToolArguments "intercomswap_ln_pay" (JsValue.vObj [("x", JsValue.vInt 1)])
      = JsValue.vObj [("x", JsValue.vInt 1)]
    ∧ repairToolArguments "intercomswap_offer_post" (JsValue.vStr "oops")
      = JsValue.vStr "oops"
    ∧ getO (objFields (repairToolArguments "intercomswap_rfq_post"
        (JsValue.vObj [("btc_sats", JsValue.vInt 1000), ("usdt_amount", JsValue.vStr "0.12")])))
        "btc_sats" = some (JsValue.vInt 1000) :=
  ⟨(c10_identity_outside_scope "intercomswap_ln_pay" (JsValue.vObj [("x", JsValue.vInt 1)])).1
      (by decide),
   (c10_identity_outside_scope "intercomswap_offer_post" (JsValue.vStr "oops")).2.1 (by decide),
   by
    have h := (c10_identity_outside_scope "intercomswap_rfq_post"
      (JsValue.vObj [("btc_sats", JsValue.vInt 1000), ("usdt_amount", JsValue.vStr "0.12")])).2.2
      (by decide) [("btc_sats", JsValue.vInt 1000), ("usdt_amount", JsValue.vStr "0.12")] rfl
      "btc_sats" (by decide)
    rw [h]
    rfl⟩

/-! Facts about the offer-post pipeline stages. -/

theorem getO_eq_none_of_hasK (o : Obj) (k : String) (h : hasK o k = false) :
    getO o k = none := by
  unfold hasK at h
  cases hg : getO o k with
  | none => rfl
  | some v =>
    rw [hg] at h
    simp at h

theorem some_getD_of_hasK (o : Obj) (k : String) (h : hasK o k = true) :
    some (getD o k) = getO o k := by
  unfold hasK at h
  unfold getD
  cases hg : getO o k with
  | none =>
    rw [hg] at h
    simp at h
  | some v => rfl

theorem flatFold_getO_not_mem (src : Obj) (ks : List String) :
    ∀ (acc : Obj) (k : String), k ∉ ks →
      getO (ks.foldl (fun acc k2 => setO acc k2 (getD src k2)) acc) k = getO acc k := by
  induction ks with
  | nil => intro acc k _; rfl
  | cons k0 ks ih =>
    intro acc k h
    have h1 : k ≠ k0 := fun hx => h (hx ▸ List.mem_cons_self k0 ks)
    have h2 : k ∉ ks := fun hx => h (List.mem_cons_of_mem k0 hx)
    rw [List.foldl_cons, ih _ k h2, getO_setO_other acc k0 k _ h1]

theorem flatFold_getO_mem (src : Obj) (ks : List String) :
    ∀ (acc : Obj) (k : String), k ∈ ks →
      getO (ks.foldl (fun acc k2 => setO acc k2 (getD src k2)) acc) k = some (getD src k) := by
  induction ks with
  | nil => intro acc k h; cases h
  | cons k0 ks ih =>
    intro acc k h
    rw [List.foldl_cons]
    by_cases hks : k ∈ ks
    · exact ih _ k hks
    · have hk0 : k = k0 := by
        rcases List.mem_cons.mp h with hx | hx
        · exact hx
        · exact absurd hx hks
      subst hk0
      rw [flatFold_getO_not_mem src ks _ k hks, getO_setO_self]

theorem mkFlatObj_getO (src : Obj) (ks : List String) (k : String) (h : k ∈ ks) :
    getO (mkFlatObj src ks) k = some (getD src k) :=
  flatFold_getO_mem src ks [] k h

theorem offersMapStep_hasK (o2 : Obj) (k : String) (hk : k ≠ "offers") :
    hasK (offersMapStep o2) k = hasK o2 k := by
  unfold offersMapStep
  split
  · exact hasK_setO_other _ "offers" k _ hk
  · rfl

/-- What the final map does to an object whose `offers` array starts with
an offer object `f`: the tail is mapped elementwise, a non-`usdt_amount`
field of the first offer is read back unchanged, and its `usdt_amount`
(when present) is read back coerced. -/
theorem offersMapStep_first (o2 : Obj) (f : Obj) (rest : List JsValue)
    (h : getO o2 "offers" = some (.vArr (.vObj f :: rest))) :
    restOffers (offersMapStep o2) = rest.map coerceOfferUsdtV
    ∧ (∀ k, k ≠ "usdt_amount" → getO (firstOfferO (offersMapStep o2)) k = getO f k)
    ∧ (hasK f "usdt_amount" = true →
        getO (firstOfferO (offersMapStep o2)) "usdt_amount"
          = some (coerceUsdtAtomic (getD f "usdt_amount"))) := by
  have hres : getO (offersMapStep o2) "offers"
      = some (.vArr (coerceOfferUsdtV (.vObj f) :: rest.map coerceOfferUsdtV)) := by
    unfold offersMapStep
    rw [h]
    show getO (setO o2 "offers" (.vArr ((.vObj f :: rest).map coerceOfferUsdtV))) "offers" = _
    rw [getO_setO_self, List.map_cons]
  by_cases hU : hasK f "usdt_amount" = true
  · have hc : coerceOfferUsdtV (.vObj f)
        = .vObj (setO f "usdt_amount" (coerceUsdtAtomic (getD f "usdt_amount"))) := by
      show (if hasK f "usdt_amount" = true then
          JsValue.vObj (setO f "usdt_amount" (coerceUsdtAtomic (getD f "usdt_amount")))
        else JsValue.vObj f)
        = JsValue.vObj (setO f "usdt_amount" (coerceUsdtAtomic (getD f "usdt_amount")))
      rw [if_pos hU]
    refine ⟨?_, ?_, ?_⟩
    · unfold restOffers
      rw [hres]
    · intro k hk
      unfold firstOfferO
      rw [hres, hc]
      show getO (setO f "usdt_amount" (coerceUsdtAtomic (getD f "usdt_amount"))) k = getO f k
      exact getO_setO_other f "usdt_amount" k _ hk
    · intro _
      unfold firstOfferO
      rw [hres, hc]
      show getO (setO f "usdt_amount" (coerceUsdtAtomic (getD f "usdt_amount"))) "usdt_amount"
        = some (coerceUsdtAtomic (getD f "usdt_amount"))
      exact getO_setO_self f "usdt_amount" _
  · have hc : coerceOfferUsdtV (.vObj f) = .vObj f := by
      show (if hasK f "usdt_amount" = true then
          JsValue.vObj (setO f "usdt_amount" (coerceUsdtAtomic (getD f "usdt_amount")))
        else JsValue.vObj f) = JsValue.vObj f
      rw [if_neg hU]
    refine ⟨?_, ?_, ?_⟩
    · unfold restOffers
      rw [hres]
    · intro k _
      unfold firstOfferO
      rw [hres, hc]
    · intro hcontra
      rw [hcontra] at hU
      exact absurd rfl hU

/-- C8 counterexample: with an existing two-element `offers` array, the
flattened key is merged into the first offer but the result is a
two-element array, not a single-element one; and the first offer's
pre-existing `usdt_amount` does not keep its value literally — it is
re-coerced to `"500000"`, which is neither the kept `"0.5"` nor the
flattened top-level `"1"`. -/
theorem c8_counterexample :
    offersLenOf (repairToolArguments "intercomswap_offer_post" (JsValue.vObj c8args)) = some 2
    ∧ (2 : Nat) ≠ 1
    ∧ firstOfferField (repairToolArguments "intercomswap_offer_post" (JsValue.vObj c8args))
        "usdt_amount" = some (JsValue.vStr "500000")
    ∧ JsValue.vStr "500000" ≠ JsValue.vStr "0.5"
    ∧ JsValue.vStr "500000" ≠ JsValue.vStr "1" := by
  refine ⟨rfl, by decide, rfl, ?_, ?_⟩
  · intro h
    injection h with h2
    exact absurd h2 (by decide)
  · intro h
    injection h with h2
    exact absurd h2 (by decide)

/-- C8 (amended): for an `intercomswap_offer_post` argument object with
top-level offer-schema keys, the repair moves those keys into the *first*
element of `offers[]` and deletes them from the top level.  When `offers`
is missing, empty or headed by a non-object, a fresh single-element array
is created from the flattened keys; when `offers[0]` is an object it is
merged into and the later elements are kept (so the array need not be
single-element).  On merge, a key already present in `offers[0]` is never
replaced by the flattened top-level value; `usdt_amount` is afterwards
coerced to atomic form from the kept value. -/
theorem c8_flattening (o : Obj) (hflat : flattenedOf o ≠ []) :
    repairToolArguments "intercomswap_offer_post" (JsValue.vObj o)
      = JsValue.vObj (repairOfferPost o)
    ∧ (∀ k, k ∈ offerKeys → hasK (repairOfferPost o) k = false)
    ∧ (∀ base rest, getO o "offers" = some (JsValue.vArr (JsValue.vObj base :: rest)) →
        restOffers (repairOfferPost o) = rest.map coerceOfferUsdtV
        ∧ (∀ k, hasK base k = true → k ≠ "usdt_amount" →
            getO (firstOfferO (repairOfferPost o)) k = getO base k)
        ∧ (hasK base "usdt_amount" = true →
            getO (firstOfferO (repairOfferPost o)) "usdt_amount"
              = some (coerceUsdtAtomic (getD base "usdt_amount")))
        ∧ (∀ k, k ∈ offerKeys → hasK base k = false → hasK o k = true → k ≠ "usdt_amount" →
            getO (firstOfferO (repairOfferPost o)) k = getO o k))
    ∧ (usableFirstOffer o = false →
        offersLenOf (JsValue.vObj (repairOfferPost o)) = some 1
        ∧ (∀ k, k ∈ offerKeys → hasK o k = true → k ≠ "usdt_amount" →
            getO (firstOfferO (repairOfferPost o)) k = getO o k)) := by
  have hflat1 : flattenedOf (channelFix o) ≠ [] := by
    rw [flattenedOf_channelFix]
    exact hflat
  have hoffnot : "offers" ∉ flattenedOf (channelFix o) :=
    fun hmem => (offerKeys_ne_special _ (List.mem_filter.mp hmem).1).1 rfl
  have hOff1 : getO (channelFix o) "offers" = getO o "offers" :=
    channelFix_getO o "offers" (by decide) (by decide)
  have hL1 : getO (offerFlattenStep (channelFix o)) "offers"
      = some (offerNewOffers (channelFix o) (flattenedOf (channelFix o))) := by
    unfold offerFlattenStep
    rw [if_neg hflat1, getO_foldl_delO_not_mem _ _ _ hoffnot, getO_setO_self]
  refine ⟨?_, ?_, ?_, ?_⟩
  · show (if "intercomswap_offer_post" = "intercomswap_offer_post" then
      JsValue.vObj (repairOfferPost o)
    else if ("intercomswap_offer_post" : String) ∈ rfqLikeTools then
      JsValue.vObj (coerceField o "usdt_amount" coerceUsdtAtomic)
    else if ("intercomswap_offer_post" : String) ∈ lamportTools then
      JsValue.vObj (coerceField o "lamports" coerceSolLamports)
    else JsValue.vObj o) = JsValue.vObj (repairOfferPost o)
    rw [if_pos rfl]
  · intro k hk
    obtain ⟨hko, _, _⟩ := offerKeys_ne_special k hk
    show hasK (offersMapStep (offerFlattenStep (channelFix o))) k = false
    rw [offersMapStep_hasK _ k hko]
    unfold offerFlattenStep
    rw [if_neg hflat1]
    by_cases hmem : k ∈ flattenedOf (channelFix o)
    · exact hasK_foldl_delO_mem _ _ k hmem
    · have hk1 : hasK (channelFix o) k = false := by
        cases hKK : hasK (channelFix o) k with
        | false => rfl
        | true => exact absurd (List.mem_filter.mpr ⟨hk, hKK⟩) hmem
      refine hasK_foldl_delO_false _ _ k ?_
      rw [hasK_setO_other _ "offers" k _ hko]
      exact hk1
  · intro base rest hoff
    have hoff1 : getO (channelFix o) "offers" = some (.vArr (.vObj base :: rest)) := by
      rw [hOff1]
      exact hoff
    have hnew : offerNewOffers (channelFix o) (flattenedOf (channelFix o))
        = .vArr (.vObj (mergeMissing base (channelFix o) (flattenedOf (channelFix o))) :: rest) := by
      unfold offerNewOffers
      rw [hoff1]
    have hL2 : getO (offerFlattenStep (channelFix o)) "offers"
        = some (.vArr (.vObj (mergeMissing base (channelFix o)
            (flattenedOf (channelFix o))) :: rest)) := by
      rw [hL1, hnew]
    have H := offersMapStep_first (offerFlattenStep (channelFix o)) _ rest hL2
    refine ⟨H.1, ?_, ?_, ?_⟩
    · intro k hbk hku
      have h2 := H.2.1 k hku
      show getO (firstOfferO (offersMapStep (offerFlattenStep (channelFix o)))) k = getO base k
      rw [h2]
      exact mergeMissing_existing (channelFix o) _ base k hbk
    · intro hbU
      have hmergU : hasK (mergeMissing base (channelFix o) (flattenedOf (channelFix o)))
          "usdt_amount" = true := by
        unfold hasK
        rw [mergeMissing_existing (channelFix o) _ base _ hbU]
        exact hbU
      have h3 := H.2.2 hmergU
      have h4 : getD (mergeMissing base (channelFix o) (flattenedOf (channelFix o)))
          "usdt_amount" = getD base "usdt_amount" := by
        unfold getD
        rw [mergeMissing_existing (channelFix o) _ base _ hbU]
      show getO (firstOfferO (offersMapStep (offerFlattenStep (channelFix o)))) "usdt_amount"
        = some (coerceUsdtAtomic (getD base "usdt_amount"))
      rw [h3, h4]
    · intro k hk hbk hok hku
      obtain ⟨_, hkc1, hkc2⟩ := offerKeys_ne_special k hk
      have hok1 : hasK (channelFix o) k = true := by
        rw [channelFix_hasK o k hkc1 hkc2]
        exact hok
      have hmem : k ∈ flattenedOf (channelFix o) := List.mem_filter.mpr ⟨hk, hok1⟩
      have h5 := H.2.1 k hku
      have h6 := mergeMissing_new (channelFix o) _ base k hmem hbk
      show getO (firstOfferO (offersMapStep (offerFlattenStep (channelFix o)))) k = getO o k
      rw [h5, h6]
      have hgd : getD (channelFix o) k = getD o k := by
        unfold getD
        rw [channelFix_getO o k hkc1 hkc2]
      rw [hgd]
      exact some_getD_of_hasK o k hok
  · intro hnotusable
    have hnew : offerNewOffers (channelFix o) (flattenedOf (channelFix o))
        = .vArr [.vObj (mkFlatObj (channelFix o) (flattenedOf (channelFix o)))] := by
      unfold offerNewOffers
      rw [hOff1]
      unfold usableFirstOffer at hnotusable
      cases hg : getO o "offers" with
      | none => rfl
      | some v =>
        rw [hg] at hnotusable
        cases v with
        | vArr xs =>
          cases xs with
          | nil => rfl
          | cons first rest =>
            have hnu2 : isObjectV first = false := hnotusable
            cases first with
            | vObj fo => exact absurd hnu2 (by simp [isObjectV])
            | vNull => rfl
            | vUndef => rfl
            | vNanInf => rfl
            | vBool b => rfl
            | vInt n => rfl
            | vStr s => rfl
            | vArr ys => rfl
        | vNull => rfl
        | vUndef => rfl
        | vNanInf => rfl
        | vBool b => rfl
        | vInt n => rfl
        | vStr s => rfl
        | vObj fo => rfl
    have hL3 : getO (offerFlattenStep (channelFix o)) "offers"
        = some (.vArr (.vObj (mkFlatObj (channelFix o) (flattenedOf (channelFix o))) :: [])) := by
      rw [hL1, hnew]
    have H := offersMapStep_first (offerFlattenStep (channelFix o)) _ [] hL3
    constructor
    · have hres : getO (offersMapStep (offerFlattenStep (channelFix o))) "offers"
          = some (.vArr (coerceOfferUsdtV
              (.vObj (mkFlatObj (channelFix o) (flattenedOf (channelFix o)))) :: [])) := by
        unfold offersMapStep
        rw [hL3]
        show getO (setO (offerFlattenStep (channelFix o)) "offers"
          (.vArr ((.vObj (mkFlatObj (channelFix o) (flattenedOf (channelFix o))) :: []).map
            coerceOfferUsdtV))) "offers" = _
        rw [getO_setO_self]
        rfl
      show (match getO (offersMapStep (offerFlattenStep (channelFix o))) "offers" with
        | some (.vArr xs) => some xs.length
        | _ => none) = some 1
      rw [hres]
      rfl
    · intro k hk hok hku
      obtain ⟨_, hkc1, hkc2⟩ := offerKeys_ne_special k hk
      have hok1 : hasK (channelFix o) k = true := by
        rw [channelFix_hasK o k hkc1 hkc2]
        exact hok
      have hmem : k ∈ flattenedOf (channelFix o) := List.mem_filter.mpr ⟨hk, hok1⟩
      have h5 := H.2.1 k hku
      have h6 := mkFlatObj_getO (channelFix o) _ k hmem
      show getO (firstOfferO (offersMapStep (offerFlattenStep (channelFix o)))) k = getO o k
      rw [h5, h6]
      have hgd : getD (channelFix o) k = getD o k := by
        unfold getD
        rw [channelFix_getO o k hkc1 hkc2]
      rw [hgd]
      exact some_getD_of_hasK o k hok

/-- C8 witness: a flattened `pair` key is removed from the top level and
an existing first-offer field keeps its value. -/
theorem c8_witness :
    hasK (repairOfferPost [("pair", JsValue.vStr "p"),
      ("offers", JsValue.vArr [JsValue.vObj [("have", JsValue.vStr "H")], JsValue.vObj []])])
      "pair" = false
    ∧ getO (firstOfferO (repairOfferPost [("pair", JsValue.vStr "p"),
        ("offers", JsValue.vArr [JsValue.vObj [("have", JsValue.vStr "H")], JsValue.vObj []])]))
        "have" = some (JsValue.vStr "H") := by
  have H := c8_flattening [("pair", JsValue.vStr "p"),
    ("offers", JsValue.vArr [JsValue.vObj [("have", JsValue.vStr "H")], JsValue.vObj []])]
    (by decide)
  refine ⟨H.2.1 "pair" (by decide), ?_⟩
  have H2 := H.2.2.1 [("have", JsValue.vStr "H")] [JsValue.vObj []] rfl
  exact H2.2.1 "have" (by decide) (by decide)

/-! Part B claims: the pre-pay verifier and the trade state machine
(spec-modelled, see the doc comments of their definitions). -/

/-- C1: the pre-pay verifier returns ok exactly when all six checks of
§4.5 hold — hash agreement between invoice and escrow bodies, the
deterministic PDA derivation, the on-chain escrow account owned by the
program and matching the negotiated terms (including
`invoice.payment_hash_hex = escrow.payment_hash_hex` via check 1 and
`invoice.amount_msat = terms.btc_sats * 1000` via check 6), the time
safety margin, and the funded vault; and on any error the client does not
attempt `pay(bolt11)`. -/
theorem c1_prepay_all_six_checks (terms : TermsBody) (invoice : InvoiceBody)
    (escrow : EscrowBody) (chain : ChainState) (now_unix : Int) :
    (verifySwapPrePayOnchain terms invoice escrow chain now_unix = Except.ok () ↔
      prePayChecks terms invoice escrow chain now_unix)
    ∧ (∀ err, verifySwapPrePayOnchain terms invoice escrow chain now_unix = Except.error err →
        clientAttemptsPay terms invoice escrow chain now_unix = false) := by
  constructor
  · constructor
    · intro h
      unfold verifySwapPrePayOnchain at h
      by_cases h1 : invoice.payment_hash_hex = escrow.payment_hash_hex
      case neg => rw [if_pos h1] at h; exact Except.noConfusion h
      rw [if_neg (not_not_intro h1)] at h
      by_cases h2 : escrow.escrow_pda = derivePda escrow.program_id escrow.payment_hash_hex
      case neg => rw [if_pos h2] at h; exact Except.noConfusion h
      rw [if_neg (not_not_intro h2)] at h
      unfold verifyAccount at h
      cases hacc : lookupAccount chain escrow.escrow_pda with
      | none =>
        rw [hacc] at h
        exact Except.noConfusion h
      | some acct =>
        rw [hacc] at h
        dsimp only at h
        by_cases h3 : acct.owner = escrow.program_id
        case neg => rw [if_pos h3] at h; exact Except.noConfusion h
        rw [if_neg (not_not_intro h3)] at h
        unfold verifyParsed at h
        cases hesc : acct.escrow with
        | none =>
          rw [hesc] at h
          exact Except.noConfusion h
        | some st =>
          rw [hesc] at h
          dsimp only at h
          unfold verifyEscrowState at h
          by_cases h4 : st.status = EscStatus.FUNDED ∧ st.amount = terms.usdt_amount
              ∧ st.mint = terms.sol_mint ∧ st.recipient = terms.sol_recipient
              ∧ st.refund = terms.sol_refund
              ∧ st.payment_hash_hex = invoice.payment_hash_hex
              ∧ st.refund_after_unix = terms.sol_refund_after_unix
          case neg => rw [if_neg h4] at h; exact Except.noConfusion h
          rw [if_pos h4] at h
          by_cases h5 : now_unix + SAFETY_MARGIN_SEC < st.refund_after_unix
          case neg => rw [if_neg h5] at h; exact Except.noConfusion h
          rw [if_pos h5] at h
          unfold verifyVault at h
          cases hta : lookupToken chain escrow.vault_ata with
          | none =>
            rw [hta] at h
            exact Except.noConfusion h
          | some ta =>
            rw [hta] at h
            dsimp only at h
            by_cases h6 : ta.mint = terms.sol_mint ∧ ta.owner = escrow.escrow_pda
            case neg => rw [if_neg h6] at h; exact Except.noConfusion h
            rw [if_pos h6] at h
            by_cases h7 : ta.amount < st.amount
            case pos => rw [if_pos h7] at h; exact Except.noConfusion h
            rw [if_neg h7] at h
            by_cases h8 : invoice.amount_msat = terms.btc_sats * 1000
            case neg => rw [if_pos h8] at h; exact Except.noConfusion h
            obtain ⟨hs1, hs2, hs3, hs4, hs5, hs6, hs7⟩ := h4
            obtain ⟨ht1, ht2⟩ := h6
            exact ⟨h1, h2, acct, st, ta, hacc, h3, hesc, hs1, hs2, hs3, hs4, hs5, hs6,
              hs7, h5, hta, ht1, ht2, Nat.not_lt.mp h7, h8⟩
    · rintro ⟨h1, h2, acct, st, ta, hacc, h3, hesc, hs1, hs2, hs3, hs4, hs5, hs6, hs7,
        h5, hta, ht1, ht2, hle, h8⟩
      unfold verifySwapPrePayOnchain
      rw [if_neg (not_not_intro h1), if_neg (not_not_intro h2), hacc]
      unfold verifyAccount
      dsimp only
      rw [if_neg (not_not_intro h3), hesc]
      unfold verifyParsed
      dsimp only
      unfold verifyEscrowState
      rw [if_pos ⟨hs1, hs2, hs3, hs4, hs5, hs6, hs7⟩, if_pos h5, hta]
      unfold verifyVault
      dsimp only
      rw [if_pos ⟨ht1, ht2⟩, if_neg (Nat.not_lt.mpr hle), if_neg (not_not_intro h8)]
  · intro err herr
    unfold clientAttemptsPay
    rw [herr]

/-- C1 witness: on the concrete happy-path inputs the verifier succeeds,
so by the equivalence all six checks hold there. -/
theorem c1_witness : prePayChecks termsEx invEx escEx chainEx 0 :=
  (c1_prepay_all_six_checks termsEx invEx escEx chainEx 0).1.mp (by decide)

/-- Every successful apply records the envelope and keeps the trade id. -/
theorem applyOk_facts (t : Trade) (e : Envelope) (now_unix : Int) (t2 : Trade)
    (h : applySwapEnvelope t e now_unix = Except.ok t2) :
    e.trade_id = t2.trade_id ∧ e ∈ t2.applied := by
  unfold applySwapEnvelope at h
  by_cases hid : e.trade_id = t.trade_id
  case neg => rw [if_pos hid] at h; exact Except.noConfusion h
  rw [if_neg (not_not_intro hid)] at h
  by_cases hmem : e ∈ t.applied
  · rw [if_pos hmem] at h
    injection h with hEq
    subst hEq
    exact ⟨hid, hmem⟩
  · rw [if_neg hmem] at h
    cases hstate : t.state <;> cases hbody : e.body <;> rw [hstate, hbody] at h <;>
      dsimp only at h <;>
      first
      | exact Except.noConfusion h
      | (injection h with hEq; subst hEq; exact ⟨hid, List.mem_cons_self _ _⟩)
      | (split at h <;>
          first
          | exact Except.noConfusion h
          | (injection h with hEq; subst hEq; exact ⟨hid, List.mem_cons_self _ _⟩)
          | (split at h <;>
              first
              | exact Except.noConfusion h
              | (injection h with hEq; subst hEq; exact ⟨hid, List.mem_cons_self _ _⟩)))

/-- C2: applying the same byte-identical envelope twice equals applying it
once — as a trade transformer the second application changes nothing, a
successful apply replays as a no-op success, and a rejected apply rejects
identically, leaving the trade record of the first application intact. -/
theorem c2_apply_idempotent (t : Trade) (e : Envelope) (now_unix : Int) :
    applyTrade (applyTrade t e now_unix) e now_unix = applyTrade t e now_unix
    ∧ (∀ t2, applySwapEnvelope t e now_unix = Except.ok t2 →
        applySwapEnvelope t2 e now_unix = Except.ok t2)
    ∧ (∀ r, applySwapEnvelope t e now_unix = Except.error r →
        applySwapEnvelope (applyTrade t e now_unix) e now_unix = Except.error r) := by
  have hreplay : ∀ t2, applySwapEnvelope t e now_unix = Except.ok t2 →
      applySwapEnvelope t2 e now_unix = Except.ok t2 := by
    intro t2 h
    obtain ⟨hid, hmem⟩ := applyOk_facts t e now_unix t2 h
    unfold applySwapEnvelope
    rw [if_neg (not_not_intro hid), if_pos hmem]
  refine ⟨?_, hreplay, ?_⟩
  · cases happ : applySwapEnvelope t e now_unix with
    | ok t2 =>
      have hx1 : applyTrade t e now_unix = t2 := by
        unfold applyTrade
        rw [happ]
      have hx2 : applyTrade t2 e now_unix = t2 := by
        unfold applyTrade
        rw [hreplay t2 happ]
      rw [hx1, hx2]
    | error r =>
      have hx1 : applyTrade t e now_unix = t := by
        unfold applyTrade
        rw [happ]
      rw [hx1]
      exact hx1
  · intro r h
    have hx1 : applyTrade t e now_unix = t := by
      unfold applyTrade
      rw [h]
    rw [hx1]
    exact h

/-- C2 witness: replaying the TERMS envelope on the trade it produced is a
no-op success. -/
theorem c2_witness : applySwapEnvelope trade1 env1 0 = Except.ok trade1 :=
  (c2_apply_idempotent trade0 env1 0).2.1 trade1 (by decide)

/-- C3: binding closure — every trade reachable from `create_initial` by
successful applies that sits in `ESCROW`, `LN_PAID` or `CLAIMED` stores an
escrow body mirroring the stored terms and invoice exactly: amount, mint,
recipient and refund time equal the TERMS fields and the payment hash
equals the invoice's. -/
theorem c3_binding_closure (t : Trade) (hreach : ReachableTrade t) :
    t.state = TState.ESCROW ∨ t.state = TState.LN_PAID ∨ t.state = TState.CLAIMED →
    ∃ tb ib eb, t.terms = some tb ∧ t.invoice = some ib ∧ t.escrow = some eb
      ∧ eb.amount = tb.usdt_amount ∧ eb.mint = tb.sol_mint
      ∧ eb.recipient = tb.sol_recipient
      ∧ eb.refund_after_unix = tb.sol_refund_after_unix
      ∧ eb.payment_hash_hex = ib.payment_hash_hex := by
  induction hreach with
  | start id =>
    intro hst
    rcases hst with h | h | h <;> exact TState.noConfusion h
  | step t1 e1 nw t2 hr happ ih =>
    intro hst
    unfold applySwapEnvelope at happ
    by_cases hid : e1.trade_id = t1.trade_id
    case neg => rw [if_pos hid] at happ; exact Except.noConfusion happ
    rw [if_neg (not_not_intro hid)] at happ
    by_cases hmem : e1 ∈ t1.applied
    · rw [if_pos hmem] at happ
      injection happ with hEq
      subst hEq
      exact ih hst
    · rw [if_neg hmem] at happ
      cases hbody : e1.body with
      | terms tb =>
        cases hstate : t1.state <;> rw [hstate, hbody] at happ <;> dsimp only at happ <;>
          first
          | exact Except.noConfusion happ
          | (split at happ <;>
              first
              | exact Except.noConfusion happ
              | (injection happ with hEq; subst hEq;
                 rcases hst with h | h | h <;> exact TState.noConfusion h))
      | accept th =>
        cases hstate : t1.state <;> rw [hstate, hbody] at happ <;> dsimp only at happ <;>
          first
          | exact Except.noConfusion happ
          | (split at happ <;>
              first
              | exact Except.noConfusion happ
              | (injection happ with hEq; subst hEq;
                 rcases hst with h | h | h <;> exact TState.noConfusion h))
      | lnInvoice ib =>
        cases hstate : t1.state <;> rw [hstate, hbody] at happ <;> dsimp only at happ <;>
          first
          | exact Except.noConfusion happ
          | (injection happ with hEq; subst hEq;
             rcases hst with h | h | h <;> exact TState.noConfusion h)
          | (split at happ <;> exact Except.noConfusion happ)
      | cancel r =>
        cases hstate : t1.state <;> rw [hstate, hbody] at happ <;> dsimp only at happ <;>
          first
          | exact Except.noConfusion happ
          | (split at happ <;>
              first
              | exact Except.noConfusion happ
              | (injection happ with hEq; subst hEq;
                 rcases hst with h | h | h <;> exact TState.noConfusion h))
      | statusNote stt note =>
        cases hstate : t1.state <;> rw [hstate, hbody] at happ <;> dsimp only at happ <;>
          first
          | exact Except.noConfusion happ
          | (split at happ <;> exact Except.noConfusion happ)
      | otherKind k blob =>
        cases hstate : t1.state <;> rw [hstate, hbody] at happ <;> dsimp only at happ <;>
          first
          | exact Except.noConfusion happ
          | (split at happ <;> exact Except.noConfusion happ)
      | solEscrowCreated eb =>
        cases hstate : t1.state
        all_goals (rw [hstate, hbody] at happ; dsimp only at happ)
        all_goals (try (first
          | exact Except.noConfusion happ
          | (split at happ <;> exact Except.noConfusion happ)))
        · cases hterms : t1.terms with
          | none =>
            rw [hterms] at happ
            dsimp only at happ
            exact Except.noConfusion happ
          | some tb =>
            cases hinv : t1.invoice with
            | none =>
              rw [hterms, hinv] at happ
              dsimp only at happ
              exact Except.noConfusion happ
            | some ib =>
              rw [hterms, hinv] at happ
              dsimp only at happ
              by_cases hcond : eb.payment_hash_hex = ib.payment_hash_hex
                  ∧ eb.amount = tb.usdt_amount ∧ eb.mint = tb.sol_mint
                  ∧ eb.recipient = tb.sol_recipient ∧ eb.refund = tb.sol_refund
                  ∧ eb.refund_after_unix = tb.sol_refund_after_unix
              · rw [if_pos hcond] at happ
                injection happ with hEq
                subst hEq
                obtain ⟨q1, q2, q3, q4, _, q6⟩ := hcond
                exact ⟨tb, ib, eb, rfl, rfl, rfl, q2, q3, q4, q6, q1⟩
              · rw [if_neg hcond] at happ
                exact Except.noConfusion happ
      | lnPaid ph =>
        cases hstate : t1.state
        all_goals (rw [hstate, hbody] at happ; dsimp only at happ)
        all_goals (try (first
          | exact Except.noConfusion happ
          | (split at happ <;> exact Except.noConfusion happ)))
        · cases hinv : t1.invoice with
          | none =>
            rw [hinv] at happ
            dsimp only at happ
            exact Except.noConfusion happ
          | some ib =>
            rw [hinv] at happ
            dsimp only at happ
            by_cases hph : ph = ib.payment_hash_hex
            · rw [if_pos hph] at happ
              injection happ with hEq
              subst hEq
              obtain ⟨tb, ib2, eb, hT, hI, hE, q1, q2, q3, q4, q5⟩ := ih (Or.inl hstate)
              rw [hinv] at hI
              have hib : ib2 = ib := (Option.some.inj hI).symm
              subst hib
              exact ⟨tb, ib2, eb, hT, rfl, hE, q1, q2, q3, q4, q5⟩
            · rw [if_neg hph] at happ
              exact Except.noConfusion happ
      | solClaimed ph pda txs =>
        cases hstate : t1.state
        all_goals (rw [hstate, hbody] at happ; dsimp only at happ)
        all_goals (try (first
          | exact Except.noConfusion happ
          | (split at happ <;> exact Except.noConfusion happ)))
        · cases hinv : t1.invoice with
          | none =>
            rw [hinv] at happ
            dsimp only at happ
            exact Except.noConfusion happ
          | some ib =>
            cases hescr : t1.escrow with
            | none =>
              rw [hinv, hescr] at happ
              dsimp only at happ
              exact Except.noConfusion happ
            | some eb =>
              rw [hinv, hescr] at happ
              dsimp only at happ
              by_cases hcond : ph = ib.payment_hash_hex ∧ pda = eb.escrow_pda
              · rw [if_pos hcond] at happ
                injection happ with hEq
                subst hEq
                obtain ⟨tb, ib2, eb2, hT, hI, hE, q1, q2, q3, q4, q5⟩ :=
                  ih (Or.inr (Or.inl hstate))
                rw [hinv] at hI
                rw [hescr] at hE
                have hib : ib2 = ib := (Option.some.inj hI).symm
                have heb : eb2 = eb := (Option.some.inj hE).symm
                subst hib
                subst heb
                exact ⟨tb, ib2, eb2, hT, rfl, rfl, q1, q2, q3, q4, q5⟩
              · rw [if_neg hcond] at happ
                exact Except.noConfusion happ

/-- C3 witness: the concrete happy-path trade reaches `ESCROW` through
TERMS, ACCEPT, LN_INVOICE and SOL_ESCROW_CREATED, and its stored bodies
mirror each other as the invariant states. -/
theorem c3_witness :
    ∃ tb ib eb, trade4.terms = some tb ∧ trade4.invoice = some ib
      ∧ trade4.escrow = some eb
      ∧ eb.amount = tb.usdt_amount ∧ eb.mint = tb.sol_mint
      ∧ eb.recipient = tb.sol_recipient
      ∧ eb.refund_after_unix = tb.sol_refund_after_unix
      ∧ eb.payment_hash_hex = ib.payment_hash_hex :=
  c3_binding_closure trade4
    (ReachableTrade.step trade3 env4 0 trade4
      (ReachableTrade.step trade2 env3 0 trade3
        (ReachableTrade.step trade1 env2 0 trade2
          (ReachableTrade.step trade0 env1 0 trade1
            (ReachableTrade.start "t1")
            (by decide))
          (by decide))
        (by decide))
      (by decide))
    (Or.inl (by decide))

end IntercomSwap
